import Mathlib

/-!
# Verification of the s3stream chunked-transfer engine

Shallow embedding of the streaming S3 client `s3stream` (Go).  The repository
contains two variants of the same module: `s3.go` (aws-sdk-go v1, using
`pkg/errors` for wrapping) and the v2 file (aws-sdk-go-v2, using `fmt.Errorf`
with `%w`).  Both share the same control flow for `Get` and `Put`; they differ
in the error-wrapping library (`errors.Wrap` returns nil on a nil argument,
`fmt.Errorf` never returns nil) and in that the v2 `Get` uses a configurable
`readPartSize` where v1 uses the constant `readBlockSize`.

The remote S3 API is abstracted as in the code: `HeadObject` as a length
lookup, `GetObject` with a range as a fetch function keyed by the inclusive
byte range, and the multipart triplet as injectable outcomes.  Bytes are
modelled as `Nat`, byte buffers as `List Nat`.  The `copy` into the fixed
`writeBlockSize` byte array is modelled as list append; this is justified
because `dataidx + n ≤ writeBlockSize` holds at every copy point whenever
each read returns at most `tempBlockSize ≤ writeBlockSize` bytes (proved
below as the part-size invariant), so no truncation ever occurs.
-/

namespace S3Stream

/-! ## Constants (from the `const` block of both variants) -/

def readBlockSize : Nat := 16 * 1024 * 1024

def writeBlockSize : Nat := 8 * 1024 * 1024

def tempBlockSize : Nat := 1 * 1024 * 1024

def awsMaxParts : Nat := 10000

def awsMaxPartSize : Nat := 5 * 1024 * 1024 * 1024

def maxUploadRetries : Nat := 5

/-! ## Go error values

A Go `error` is `Option GoErr` (`none` = nil).  `GoErr.wrap` models an error
produced by wrapping another error (`fmt.Errorf` with `%w`, or
`errors.Wrap`); `GoErr.msg` models an error with no wrapped cause;
`GoErr.api` models a structured AWS service error (smithy `APIError` /
`awserr.Error`) with code and message; `GoErr.transport` is an arbitrary
generic transport error, tagged so distinct failures are distinguishable. -/

inductive GoErr where
  | api (code msg : String)
  | transport (tag : Nat)
  | msg (s : String)
  | wrap (s : String) (inner : GoErr)
deriving DecidableEq, Repr

/-- Models `fmt.Errorf("<s>: %w", e)`: always a non-nil error, wrapping `e` when
`e` is non-nil. -/
def wrapV2 (s : String) : Option GoErr → Option GoErr
  | some e => some (.wrap s e)
  | none => some (.msg s)

/-- Models `errors.Wrap(e, s)` from `pkg/errors`: returns nil when `e` is nil. -/
def wrapV1 (s : String) : Option GoErr → Option GoErr
  | some e => some (.wrap s e)
  | none => none

/-- Models `errors.As(err, &apiErr)` with a smithy `APIError` target: walks the
wrap chain looking for a structured service error. -/
def errorsAsAPI : GoErr → Option (String × String)
  | .api c m => some (c, m)
  | .wrap _ e => errorsAsAPI e
  | _ => none

/-- Whether `c` occurs in the wrap chain of `e`. -/
def errContains : GoErr → GoErr → Bool
  | e, c =>
    if e = c then true
    else
      match e with
      | .wrap _ inner => errContains inner c
      | _ => false

/-! ## Download pipeline (`Get`)

`Get` probes the object length with `HeadObject`, then spawns a goroutine
that fetches consecutive ranges (`bytes=start-end`, inclusive) and writes
each into an `io.Pipe`; the caller reads the pipe.  `fetch` models
`getDataInRange` (the `GetObject` call plus `ReadAll`), keyed by the
inclusive range `(start, end)`.  The pipe is modelled by the list of bytes
successfully written (`delivered`) plus its close state: `none` = still
open, `some none` = closed cleanly (consumer sees EOF), `some (some e)` =
closed with error `e` (consumer sees `e` as a read error). -/

inductive FetchResult where
  | ok (data : List Nat)
  | fail (e : GoErr)
deriving DecidableEq, Repr

/-- State of one download: pipe contents/close state plus the trace of
ranged fetches issued, in order. -/
structure GetRun where
  delivered : List Nat
  closed : Option (Option GoErr)
  fetched : List (Nat × Nat)
deriving DecidableEq, Repr

def initGet : GetRun := ⟨[], none, []⟩

/-- Models `pw.Write(data)`: fails (returning the close error) when the pipe is
already closed, otherwise appends the bytes for the consumer. -/
def pipeWrite (st : GetRun) (data : List Nat) : GetRun × Option GoErr :=
  match st.closed with
  | some c =>
      (st, some (match c with
        | some e => e
        | none => .msg "io: read/write on closed pipe"))
  | none => ({ st with delivered := st.delivered ++ data }, none)

/-- Models `pw.CloseWithError(e)`: the first close sticks, later closes are
ignored. -/
def pipeCloseWithError (st : GetRun) (e : GoErr) : GetRun :=
  match st.closed with
  | some _ => st
  | none => { st with closed := some (some e) }

/-- The deferred `pw.Close()` at goroutine exit: a clean close if nothing
closed the pipe earlier. -/
def finalClose (st : GetRun) : GetRun :=
  match st.closed with
  | some _ => st
  | none => { st with closed := some none }

/-- One iteration of the download goroutine body for the inclusive range
`[a, b]`: fetch, on error `CloseWithError`, then write (on a fetch error
the written slice is nil), and on a write error `CloseWithError` with the
message `wmsg` ("could not write data" in the main loop, "could not get
data" in the remainder block). -/
def getDataStep (fetch : Nat × Nat → FetchResult) (wmsg : String)
    (a b : Nat) (st : GetRun) : GetRun :=
  let st := { st with fetched := st.fetched ++ [(a, b)] }
  match fetch (a, b) with
  | .fail e =>
      let st := pipeCloseWithError st (.wrap "could not get data" e)
      let wr := pipeWrite st []
      match wr.2 with
      | some we => pipeCloseWithError wr.1 (.wrap wmsg we)
      | none => wr.1
  | .ok data =>
      let wr := pipeWrite st data
      match wr.2 with
      | some we => pipeCloseWithError wr.1 (.wrap wmsg we)
      | none => wr.1

/-- The goroutine spawned by `Get`: `length/P` full ranges of size `P`,
then a final range of size `length % P` when that remainder is positive,
then the deferred `pw.Close()`. -/
def getGoroutine (fetch : Nat × Nat → FetchResult) (length P : Nat) : GetRun :=
  let st := (List.range (length / P)).foldl
    (fun st i => getDataStep fetch "could not write data" (i * P) (i * P + P - 1) st)
    initGet
  let r := length % P
  let st :=
    if 0 < r then
      getDataStep fetch "could not get data" ((length / P) * P) ((length / P) * P + r - 1) st
    else st
  finalClose st

/-- Models `Store.Get`: returns an error synchronously only when the `HeadObject`
metadata probe fails; otherwise returns the (already running) stream. -/
def getStore (head : Except GoErr Nat) (fetch : Nat × Nat → FetchResult)
    (P : Nat) : Except GoErr GetRun :=
  match head with
  | .error e => .error (.wrap "could not get metadata for object" e)
  | .ok length => .ok (getGoroutine fetch length P)

/-- The closed-form range plan: the inclusive ranges the download loop
requests for an object of `L` bytes at read-part size `P`. -/
def planRanges (L P : Nat) : List (Nat × Nat) :=
  (List.range (L / P)).map (fun i => (i * P, i * P + P - 1)) ++
    (if 0 < L % P then [((L / P) * P, (L / P) * P + L % P - 1)] else [])

/-- Length of an inclusive range. -/
def rangeLen (r : Nat × Nat) : Nat := r.2 + 1 - r.1

/-- An ideal transport serving ranged reads of `obj` faithfully. -/
def idealFetch (obj : List Nat) : Nat × Nat → FetchResult :=
  fun r => .ok ((obj.drop r.1).take (rangeLen r))

/-! ## Upload pipeline (`Put`)

`Put` creates a multipart upload, then loops: read up to `tempBlockSize`
bytes into `temp`; on a non-EOF read error abort and return; if the bytes
would overflow the `writeBlockSize` buffer, upload the buffered part and
reset; copy the bytes in; on EOF upload the remaining buffer and break;
the loop runs while the part counter `i` stays `≤ awsMaxParts`.  After the
loop, if the counter was exhausted without EOF the upload is aborted with
a max-parts error, otherwise `CompleteMultipartUpload` is issued.

The input `io.Reader` is modelled as a list of read events; Go's `Read`
contract allows data to be returned together with `io.EOF`, hence the
`eof` flag on a chunk.  Once the event list is exhausted further reads
return `(0, io.EOF)`.  Remote outcomes are injectable through `PutEnv`.
The wrapping function `W` abstracts the difference between the two
variants (`wrapV2` = `fmt.Errorf` with `%w`, `wrapV1` = `errors.Wrap`). -/

/-- One result of `r.Read(temp)`: a chunk of bytes (with `eof` true when
the error returned alongside was `io.EOF`), or a non-EOF read error. -/
inductive ReadEv where
  | chunk (data : List Nat) (eof : Bool)
  | rerr (e : GoErr)
deriving DecidableEq, Repr

/-- Outcome of one remote `UploadPart` call. -/
inductive UpOutcome where
  | ok (etag : String)
  | fail (e : GoErr)
deriving DecidableEq, Repr

/-- Models `types.CompletedPart`: part number plus entity tag. -/
structure PartRecord where
  partNumber : Nat
  etag : String
deriving DecidableEq, Repr

/-- Injectable remote behaviour for one `Put` call: result of
`CreateMultipartUpload`, outcome of `UploadPart` keyed by part number and
attempt number, and the remote results of Abort and Complete. -/
structure PutEnv where
  createErr : Option GoErr
  upload : Nat → Nat → UpOutcome
  abortRemoteErr : Option GoErr
  completeErr : Option GoErr

/-- Error built by `uploadPart` when the last retry fails: a structured
service error's code and message are reported (formatted into the text,
not wrapped), a generic error is wrapped. -/
def uploadFailErr (tryNum : Nat) (e : GoErr) : GoErr :=
  match errorsAsAPI e with
  | some cm =>
      .msg ("aws error " ++ cm.1 ++ " while uploading: retried " ++
        toString tryNum ++ " times.: " ++ cm.2)
  | none =>
      .wrap ("error while uploading: retried " ++ toString tryNum ++ " times.:") e

/-- The retry loop of `uploadPart`: attempt `tryNum`, with `rem` attempts
remaining after it (`rem = maxUploadRetries - tryNum`, so `rem = 0` is the
`tryNum == maxUploadRetries` check).  Returns the result together with the
number of the last attempt actually made (= number of remote calls). -/
def uploadAttempt (f : Nat → UpOutcome) : Nat → Nat → Except GoErr String × Nat
  | tryNum, rem =>
    match f tryNum with
    | .ok etag => (.ok etag, tryNum)
    | .fail e =>
      match rem with
      | 0 => (.error (uploadFailErr tryNum e), tryNum)
      | r + 1 => uploadAttempt f (tryNum + 1) r

/-- Models `uploadPart`: retry loop then the `CompletedPart` record carrying the
given part number and the entity tag of the successful attempt. -/
def uploadPartRecord (f : Nat → UpOutcome) (pn : Nat) :
    Except GoErr PartRecord × Nat :=
  match uploadAttempt f 1 (maxUploadRetries - 1) with
  | (.ok etag, c) => (.ok ⟨pn, etag⟩, c)
  | (.error e, c) => (.error e, c)

/-- Loop state of `Put`: part counter `i`, the buffered bytes
`data[:dataidx]`, the running byte count `total`, the accumulated
`completedParts`, the payloads handed to `uploadPart` so far (ghost, for
stating what is stored), and the peak buffered-byte count (ghost). -/
@[ext] structure PutSt where
  i : Nat
  buf : List Nat
  total : Nat
  parts : List PartRecord
  payloads : List (List Nat)
  bufPeak : Nat
deriving DecidableEq, Repr

/-- How one `Put` call ended (ghost instrumentation of the control flow):
`errCreate` = `CreateMultipartUpload` failed; `errRead` = non-EOF read
error; `errUpload` = a part upload exhausted its retries; `ceiling` = the
loop exited by the `i ≤ awsMaxParts` check without EOF; `finished` = the
loop broke at EOF and Complete was attempted. -/
inductive PutExit where
  | errCreate
  | errRead
  | errUpload
  | ceiling
  | finished
deriving DecidableEq, Repr

/-- Observable outcome of one `Put` call: returned byte count and error,
the part records accumulated (passed to Complete when it was attempted),
the uploaded payloads (ghost), peak buffer fill (ghost), and how many
Abort / Complete calls were issued. -/
structure PutOut where
  total : Nat
  ret : Option GoErr
  parts : List PartRecord
  payloads : List (List Nat)
  bufPeak : Nat
  abortCalls : Nat
  completeCalls : Nat
  exit : PutExit
deriving DecidableEq, Repr

def mkOut (st : PutSt) (ret : Option GoErr) (ab cc : Nat) (ex : PutExit) : PutOut :=
  ⟨st.total, ret, st.parts, st.payloads, st.bufPeak, ab, cc, ex⟩

/-- Models `abortMultipartUpload`: wraps the remote abort result.  With `wrapV2`
(`fmt.Errorf`) the result is non-nil even when the remote call succeeded;
with `wrapV1` (`errors.Wrap`) it is nil exactly when the remote call
succeeded. -/
def abortMultipartUpload (W : String → Option GoErr → Option GoErr)
    (env : PutEnv) : Option GoErr :=
  W "could not abort upload" env.abortRemoteErr

/-- The common failure epilogue of `Put`: call abort; if the abort helper
reported an error, return the original error wrapped in the
"could not abort upload" message (note: the abort helper's own error value
is discarded); otherwise return `onOk`. -/
def abortRet (W : String → Option GoErr → Option GoErr) (env : PutEnv)
    (orig : Option GoErr) (onOk : Option GoErr) : Option GoErr :=
  match abortMultipartUpload W env with
  | some _ => W "could not abort upload" orig
  | none => onOk

/-- Exit taken on a non-EOF read error. -/
def mkReadErrOut (W : String → Option GoErr → Option GoErr) (env : PutEnv)
    (st : PutSt) (e : GoErr) : PutOut :=
  mkOut st
    (abortRet W env (some (.wrap ("could not read part " ++ toString st.i) e))
      (some (.wrap ("could not read part " ++ toString st.i) e)))
    1 0 .errRead

/-- Exit taken when a part upload exhausts its retries. -/
def mkUploadErrOut (W : String → Option GoErr → Option GoErr) (env : PutEnv)
    (st : PutSt) (e : GoErr) : PutOut :=
  mkOut st
    (abortRet W env (some (.wrap ("could not upload part " ++ toString st.i) e))
      (W "upload aborted:" (some (.wrap ("could not upload part " ++ toString st.i) e))))
    1 0 .errUpload

/-- The message of the max-parts error (which wraps the `err` variable in
scope after the loop, i.e. the nil result of `CreateMultipartUpload`). -/
def ceilingMsg : String :=
  "could not upload whole content... MaxPartsNumber limit reached. Aborting:"

/-- Exit taken when the loop exhausts the part counter without EOF. -/
def mkCeilingOut (W : String → Option GoErr → Option GoErr) (env : PutEnv)
    (st : PutSt) : PutOut :=
  mkOut st (abortRet W env (W ceilingMsg none) (W ceilingMsg none)) 1 0 .ceiling

/-- The overflow check and flush: when the incoming `n` bytes would not
fit, upload the buffered part `data[:dataidx]` as part `i`, then reset the
buffer and advance the part counter; a retry-exhausted upload takes the
abort epilogue instead. -/
def flushIfNeeded (W : String → Option GoErr → Option GoErr) (env : PutEnv)
    (wbs n : Nat) (st : PutSt) : PutOut ⊕ PutSt :=
  if wbs < st.buf.length + n then
    match (uploadPartRecord (env.upload st.i) st.i).1 with
    | .error e => .inl (mkUploadErrOut W env st e)
    | .ok rec =>
        .inr { st with parts := st.parts ++ [rec],
                       payloads := st.payloads ++ [st.buf],
                       i := st.i + 1, buf := [] }
  else .inr st

/-- Models `copy(data[dataidx:], temp[:n]); dataidx += n; total += n` (append is
exact here, see the header note), tracking the peak buffer fill. -/
def appendChunk (data : List Nat) (st : PutSt) : PutSt :=
  { st with buf := st.buf ++ data,
            total := st.total + data.length,
            bufPeak := max st.bufPeak (st.buf.length + data.length) }

/-- The EOF epilogue: upload the remaining buffer as part `i`, then issue
`CompleteMultipartUpload` with the accumulated part records. -/
def finishPut (W : String → Option GoErr → Option GoErr) (env : PutEnv)
    (st : PutSt) : PutOut :=
  match (uploadPartRecord (env.upload st.i) st.i).1 with
  | .error e => mkUploadErrOut W env st e
  | .ok rec =>
      let st := { st with parts := st.parts ++ [rec],
                          payloads := st.payloads ++ [st.buf] }
      match env.completeErr with
      | some e => mkOut st (some (.wrap "error while completing upload" e)) 0 1 .finished
      | none => mkOut st none 0 1 .finished

/-- Flush check, copy, then the EOF epilogue: the body of an iteration
whose read reported EOF (also taken when the event list is exhausted,
modelling a `(0, io.EOF)` read). -/
def finishChunk (W : String → Option GoErr → Option GoErr) (env : PutEnv)
    (wbs : Nat) (data : List Nat) (st : PutSt) : PutOut :=
  match flushIfNeeded W env wbs data.length st with
  | .inl out => out
  | .inr st1 => finishPut W env (appendChunk data st1)

/-- The buffering loop of `Put` (`for i <= awsMaxParts { ... }`). -/
def putLoop (W : String → Option GoErr → Option GoErr) (env : PutEnv)
    (wbs : Nat) : List ReadEv → PutSt → PutOut
  | [], st =>
      if awsMaxParts < st.i then mkCeilingOut W env st
      else finishChunk W env wbs [] st
  | ev :: rest, st =>
      if awsMaxParts < st.i then mkCeilingOut W env st
      else
        match ev with
        | .rerr e => mkReadErrOut W env st e
        | .chunk data true => finishChunk W env wbs data st
        | .chunk data false =>
            match flushIfNeeded W env wbs data.length st with
            | .inl out => out
            | .inr st1 => putLoop W env wbs rest (appendChunk data st1)

def initPut : PutSt := ⟨1, [], 0, [], [], 0⟩

/-- Models `Store.Put`: create the multipart upload, then run the buffering loop.
`wbs` is the `writeBlockSize` constant (kept as a parameter so that the
spec-level quantification over configured write-part sizes is statable;
the code fixes it to `writeBlockSize`). -/
def putRun (W : String → Option GoErr → Option GoErr) (env : PutEnv)
    (wbs : Nat) (evs : List ReadEv) : PutOut :=
  match env.createErr with
  | some e => ⟨0, some (.wrap "could not create multipart upload." e), [], [], 0, 0, 0, .errCreate⟩
  | none => putLoop W env wbs evs initPut

/-- The v2 (aws-sdk-go-v2 / `fmt.Errorf`) variant of `Put`. -/
def putRunV2 (env : PutEnv) (wbs : Nat) (evs : List ReadEv) : PutOut :=
  putRun wrapV2 env wbs evs

/-- The v1 (aws-sdk-go / `pkg/errors`) variant of `Put`. -/
def putRunV1 (env : PutEnv) (wbs : Nat) (evs : List ReadEv) : PutOut :=
  putRun wrapV1 env wbs evs

/-- The bytes the reader delivers before EOF (what a successful `Put`
stores): chunks concatenated up to and including the first EOF-flagged
chunk; a read error or list exhaustion ends the input. -/
def inputBytes : List ReadEv → List Nat
  | [] => []
  | .chunk d true :: _ => d
  | .chunk d false :: rest => d ++ inputBytes rest
  | .rerr _ :: _ => []

/-! ## Auxiliary definitions used by the proofs -/

/-- The download goroutine as a fold over an explicit list of ranges (the
loop over `i < length/P` plus the remainder block is proved equal to this
fold over `planRanges`).  Message differences between the two blocks are
unobservable (a write only fails on an already-closed pipe, where the
subsequent `CloseWithError` is a no-op). -/
def runRanges (f : Nat × Nat → FetchResult) (rs : List (Nat × Nat))
    (st : GetRun) : GetRun :=
  rs.foldl (fun st r => getDataStep f "could not get data" r.1 r.2 st) st

/-- The bytes a fetch returns (nil on failure, as in the code). -/
def okData (f : Nat × Nat → FetchResult) (r : Nat × Nat) : List Nat :=
  match f r with
  | .ok d => d
  | .fail _ => []

/-- Whether a fetch succeeded. -/
def FetchResult.isOk : FetchResult → Bool
  | .ok _ => true
  | .fail _ => false

/-- A remote environment in which every call succeeds. -/
def goodEnv : PutEnv := ⟨none, fun _ _ => .ok "E", none, none⟩

/-- Every chunk the reader returns has at most `tbs` bytes — Go's
`io.Reader` contract for `Read(temp)` with `len(temp) = tbs`. -/
def chunkSizesLe (tbs : Nat) (evs : List ReadEv) : Bool :=
  evs.all (fun ev => match ev with
    | .chunk d _ => d.length ≤ tbs
    | .rerr _ => true)

/-- A read event delivering one byte without EOF. -/
def plainChunk : ReadEv := .chunk [0] false

/-- A list of `n` single-byte reads. -/
def manyEvs (n : Nat) : List ReadEv := List.replicate n plainChunk

/-- Closed form of the loop state after `k` single-byte reads at write-part
size 1 in the all-success environment, starting from a state holding one
buffered byte: each read flushes the buffered byte as a part and buffers
the new one. -/
def advanceSt (k : Nat) (st : PutSt) : PutSt :=
  ⟨st.i + k, [0], st.total + k,
   st.parts ++ (List.range k).map (fun j => ⟨st.i + j, "E"⟩),
   st.payloads ++ List.replicate k [0],
   max st.bufPeak 1⟩

/-- The loop state right after the overflow branch flushed the buffer as
part `i` in the all-success environment (entity tag "E"). -/
@[reducible] def flushedSt (st : PutSt) : PutSt :=
  { st with parts := st.parts ++ [⟨st.i, "E"⟩],
            payloads := st.payloads ++ [st.buf],
            i := st.i + 1, buf := [] }

/-- Input of 10001 single-byte reads, the last delivered together with EOF (Go's
`Read` may return data and `io.EOF` in one call): at write-part size 1
this input requires 10001 parts. -/
def ceilingHitEvs : List ReadEv := manyEvs 10000 ++ [.chunk [0] true]

/-- Input of 10001 single-byte reads with EOF never reaching the loop: the part
counter is exhausted first. -/
def ceilingExhaustEvs : List ReadEv := manyEvs 10001

/-! ## Lemmas on the download pipeline -/

theorem getDataStep_closed {f : Nat × Nat → FetchResult} {m : String}
    {a b : Nat} {st : GetRun} {c : Option GoErr} (h : st.closed = some c) :
    getDataStep f m a b st = { st with fetched := st.fetched ++ [(a, b)] } := by
  obtain ⟨del, cl, fe⟩ := st
  cases h
  cases hf : f (a, b) <;>
    simp [getDataStep, pipeCloseWithError, pipeWrite, hf]

theorem getDataStep_ok {f : Nat × Nat → FetchResult} {m : String}
    {a b : Nat} {st : GetRun} {d : List Nat}
    (h : st.closed = none) (hf : f (a, b) = .ok d) :
    getDataStep f m a b st = ⟨st.delivered ++ d, none, st.fetched ++ [(a, b)]⟩ := by
  obtain ⟨del, cl, fe⟩ := st
  cases h
  simp [getDataStep, pipeCloseWithError, pipeWrite, hf]

theorem getDataStep_fail {f : Nat × Nat → FetchResult} {m : String}
    {a b : Nat} {st : GetRun} {e : GoErr}
    (h : st.closed = none) (hf : f (a, b) = .fail e) :
    getDataStep f m a b st =
      ⟨st.delivered, some (some (.wrap "could not get data" e)), st.fetched ++ [(a, b)]⟩ := by
  obtain ⟨del, cl, fe⟩ := st
  cases h
  simp [getDataStep, pipeCloseWithError, pipeWrite, hf]

theorem getDataStep_wmsg (f : Nat × Nat → FetchResult) (m1 m2 : String)
    (a b : Nat) (st : GetRun) :
    getDataStep f m1 a b st = getDataStep f m2 a b st := by
  cases hc : st.closed with
  | some c => rw [getDataStep_closed hc, getDataStep_closed hc]
  | none =>
    cases hf : f (a, b) with
    | ok d => rw [getDataStep_ok hc hf, getDataStep_ok hc hf]
    | fail e => rw [getDataStep_fail hc hf, getDataStep_fail hc hf]

theorem getDataStep_fetched (f : Nat × Nat → FetchResult) (m : String)
    (a b : Nat) (st : GetRun) :
    (getDataStep f m a b st).fetched = st.fetched ++ [(a, b)] := by
  cases hc : st.closed with
  | some c => rw [getDataStep_closed hc]
  | none =>
    cases hf : f (a, b) with
    | ok d => rw [getDataStep_ok hc hf]
    | fail e => rw [getDataStep_fail hc hf]

/-- The download goroutine is the fold of the step function over the
closed-form range plan, followed by the deferred close. -/
theorem getGoroutine_eq (f : Nat × Nat → FetchResult) (L P : Nat) :
    getGoroutine f L P = finalClose (runRanges f (planRanges L P) initGet) := by
  unfold getGoroutine runRanges planRanges
  rw [List.foldl_append, List.foldl_map]
  have h1 : (List.range (L / P)).foldl
      (fun st i => getDataStep f "could not write data" (i * P) (i * P + P - 1) st) initGet
    = (List.range (L / P)).foldl
      (fun st i => getDataStep f "could not get data" (i * P) (i * P + P - 1) st) initGet :=
    List.foldl_ext _ _ initGet (fun st i _ => getDataStep_wmsg f _ _ _ _ st)
  rw [h1]
  by_cases hr : 0 < L % P <;> simp [hr]

theorem runRanges_nil (f : Nat × Nat → FetchResult) (st : GetRun) :
    runRanges f [] st = st := rfl

theorem runRanges_cons (f : Nat × Nat → FetchResult) (r : Nat × Nat)
    (rs : List (Nat × Nat)) (st : GetRun) :
    runRanges f (r :: rs) st =
      runRanges f rs (getDataStep f "could not get data" r.1 r.2 st) := rfl

theorem runRanges_fetched (f : Nat × Nat → FetchResult)
    (rs : List (Nat × Nat)) (st : GetRun) :
    (runRanges f rs st).fetched = st.fetched ++ rs := by
  induction rs generalizing st with
  | nil => simp [runRanges_nil]
  | cons r rs ih =>
      rw [runRanges_cons, ih, getDataStep_fetched]
      simp

/-- Once the pipe is closed, later iterations only record their fetches:
nothing more is delivered and the close state is final. -/
theorem runRanges_closed {f : Nat × Nat → FetchResult}
    {rs : List (Nat × Nat)} {st : GetRun} {c : Option GoErr}
    (h : st.closed = some c) :
    runRanges f rs st = { st with fetched := st.fetched ++ rs } := by
  induction rs generalizing st with
  | nil => simp [runRanges_nil]
  | cons r rs ih =>
      rw [runRanges_cons, getDataStep_closed h]
      have hX : ({ st with fetched := st.fetched ++ [(r.1, r.2)] } : GetRun).closed
          = some c := h
      rw [ih hX]
      simp

theorem runRanges_all_ok {f : Nat × Nat → FetchResult}
    {rs : List (Nat × Nat)} {st : GetRun}
    (h : st.closed = none) (hok : ∀ r ∈ rs, ∃ d, f r = .ok d) :
    runRanges f rs st =
      ⟨st.delivered ++ (rs.map (okData f)).flatten, none, st.fetched ++ rs⟩ := by
  induction rs generalizing st with
  | nil =>
      obtain ⟨del, cl, fe⟩ := st
      cases h
      simp [runRanges_nil]
  | cons r rs ih =>
      obtain ⟨d, hd⟩ := hok r (List.mem_cons_self r rs)
      rw [runRanges_cons, getDataStep_ok h hd]
      have hX : ((⟨st.delivered ++ d, none, st.fetched ++ [(r.1, r.2)]⟩ : GetRun)).closed
          = none := rfl
      rw [ih hX (fun x hx => hok x (List.mem_cons_of_mem r hx))]
      simp [okData, hd]

/-- A failing fetch closes the pipe with its error; all the remaining
ranges are still fetched but deliver nothing. -/
theorem runRanges_fail_after {f : Nat × Nat → FetchResult}
    {rs1 rs2 : List (Nat × Nat)} {r : Nat × Nat} {st : GetRun} {e : GoErr}
    (h : st.closed = none) (hok : ∀ x ∈ rs1, ∃ d, f x = .ok d)
    (hf : f r = .fail e) :
    runRanges f (rs1 ++ r :: rs2) st =
      ⟨st.delivered ++ (rs1.map (okData f)).flatten,
       some (some (.wrap "could not get data" e)),
       st.fetched ++ (rs1 ++ r :: rs2)⟩ := by
  have hsplit : runRanges f (rs1 ++ r :: rs2) st =
      runRanges f rs2 (getDataStep f "could not get data" r.1 r.2 (runRanges f rs1 st)) := by
    simp [runRanges, List.foldl_append]
  rw [hsplit, runRanges_all_ok h hok, getDataStep_fail rfl hf,
    runRanges_closed rfl]
  simp

/-! ## Arithmetic of the range plan -/

theorem ceil_div_eq {L P : Nat} (hP : 0 < P) :
    (L + P - 1) / P = L / P + if 0 < L % P then 1 else 0 := by
  have hmod := Nat.div_add_mod L P
  have hlt : L % P < P := Nat.mod_lt _ hP
  by_cases hs : 0 < L % P
  · have h1 : L + P - 1 = P * (L / P + 1) + (L % P - 1) := by
      rw [Nat.mul_succ]
      omega
    have h2 : (L % P - 1) / P = 0 := Nat.div_eq_of_lt (by omega)
    rw [h1, Nat.mul_add_div hP, h2]
    simp [hs]
  · have h0 : L % P = 0 := by omega
    have h1 : L + P - 1 = P * (L / P) + (P - 1) := by omega
    have h2 : (P - 1) / P = 0 := Nat.div_eq_of_lt (by omega)
    rw [h1, Nat.mul_add_div hP, h2]
    simp [hs]

theorem planRanges_length {L P : Nat} (hP : 0 < P) :
    (planRanges L P).length = (L + P - 1) / P := by
  rw [ceil_div_eq hP]
  unfold planRanges
  by_cases hs : 0 < L % P <;> simp [hs]

theorem planRanges_eq_nil_iff {L P : Nat} (hP : 0 < P) :
    planRanges L P = [] ↔ L = 0 := by
  constructor
  · intro h
    by_contra hL
    have hmod := Nat.div_add_mod L P
    have hlen : (planRanges L P).length = 0 := by rw [h]; rfl
    rw [planRanges_length hP, ceil_div_eq hP] at hlen
    by_cases hs : 0 < L % P
    · simp [hs] at hlen
    · simp [hs] at hlen
      rw [hlen] at hmod
      simp at hmod
      omega
  · intro h
    subst h
    simp [planRanges]

theorem planRanges_zero (P : Nat) : planRanges 0 P = [] := by
  simp [planRanges]

/-- The full-size ranges flatten to `[0, q*P)`. -/
theorem planRanges_full_flatten (P : Nat) (hP : 0 < P) (q : Nat) :
    (((List.range q).map (fun i => ((i * P, i * P + P - 1) : Nat × Nat))).map
      (fun r => List.range' r.1 (rangeLen r))).flatten = List.range' 0 (q * P) := by
  induction q with
  | zero => simp
  | succ q ih =>
      rw [List.range_succ]
      simp only [List.map_append, List.flatten_append, ih]
      have hlen : rangeLen (q * P, q * P + P - 1) = P := by
        unfold rangeLen
        simp only
        omega
      simp only [List.map_cons, List.map_nil, List.flatten_cons, List.flatten_nil,
        List.append_nil, hlen]
      have h2 := List.range'_append_1 0 (q * P) P
      simp only [Nat.zero_add] at h2
      rw [h2, Nat.succ_mul, Nat.add_comm P (q * P)]

/-- The planned ranges cover `[0, L)` exactly once, in ascending order:
their elements, flattened in plan order, are exactly `0, 1, ..., L-1`. -/
theorem planRanges_flatten {L P : Nat} (hP : 0 < P) :
    ((planRanges L P).map (fun r => List.range' r.1 (rangeLen r))).flatten
      = List.range L := by
  have hmod := Nat.div_add_mod L P
  have hmod2 : L / P * P + L % P = L := by
    rw [Nat.mul_comm (L / P) P]
    exact hmod
  unfold planRanges
  rw [List.map_append, List.flatten_append, planRanges_full_flatten P hP]
  by_cases hs : 0 < L % P
  · rw [if_pos hs]
    have hlen : rangeLen ((L / P) * P, (L / P) * P + L % P - 1) = L % P := by
      unfold rangeLen
      simp only
      omega
    simp only [List.map_cons, List.map_nil, List.flatten_cons,
      List.flatten_nil, List.append_nil, hlen]
    have h2 := List.range'_append_1 0 ((L / P) * P) (L % P)
    simp only [Nat.zero_add] at h2
    rw [h2, List.range_eq_range', Nat.add_comm (L % P) (L / P * P), hmod2]
  · rw [if_neg hs]
    simp only [List.map_nil, List.flatten_nil, List.append_nil,
      List.range_eq_range']
    have h3 : L / P * P = L := by omega
    rw [h3]

/-- Sizes: every planned range has size `P` except the last, which has
size `L - P * (n - 1)`. -/
theorem planRanges_sizes {L P : Nat} (hP : 0 < P) (hL : L ≠ 0) :
    (planRanges L P).map rangeLen
      = List.replicate ((planRanges L P).length - 1) P
        ++ [L - P * ((planRanges L P).length - 1)] := by
  have hmod := Nat.div_add_mod L P
  have hfull : ((List.range (L / P)).map
      (fun i => ((i * P, i * P + P - 1) : Nat × Nat))).map rangeLen
      = List.replicate (L / P) P := by
    rw [List.map_map]
    have h1 : ∀ i ∈ List.range (L / P),
        (rangeLen ∘ fun i => ((i * P, i * P + P - 1) : Nat × Nat)) i = P := by
      intro i _
      simp only [Function.comp_apply]
      unfold rangeLen
      simp only
      omega
    rw [List.map_congr_left h1, List.map_const']
    simp
  by_cases hs : 0 < L % P
  · have hn : (planRanges L P).length = L / P + 1 := by
      rw [planRanges_length hP, ceil_div_eq hP]
      simp [hs]
    have hlen : rangeLen ((L / P) * P, (L / P) * P + L % P - 1) = L % P := by
      unfold rangeLen
      simp only
      omega
    rw [hn]
    unfold planRanges
    rw [if_pos hs, List.map_append, hfull]
    simp only [List.map_cons, List.map_nil, hlen, Nat.add_sub_cancel]
    congr 1
    simp only [List.cons.injEq, and_true]
    omega
  · have hn : (planRanges L P).length = L / P := by
      rw [planRanges_length hP, ceil_div_eq hP]
      simp [hs]
    have hq : 0 < L / P := by
      rcases Nat.eq_zero_or_pos (L / P) with h | h
      · rw [h] at hmod
        simp at hmod
        omega
      · exact h
    rw [hn]
    unfold planRanges
    rw [if_neg hs, List.map_append, hfull]
    simp only [List.map_nil, List.append_nil]
    have h2 : L / P = (L / P - 1) + 1 := by omega
    have h3 : P * (L / P) = P * (L / P - 1) + P := by
      conv_lhs => rw [h2]
      rw [Nat.mul_add, Nat.mul_one]
    conv_lhs => rw [h2]
    rw [List.replicate_succ']
    congr 1
    simp only [List.cons.injEq, and_true]
    omega

theorem finalClose_fetched (st : GetRun) : (finalClose st).fetched = st.fetched := by
  cases h : st.closed <;> simp [finalClose, h]

theorem getGoroutine_fetched (f : Nat × Nat → FetchResult) (L P : Nat) :
    (getGoroutine f L P).fetched = planRanges L P := by
  rw [getGoroutine_eq, finalClose_fetched, runRanges_fetched]
  simp [initGet]

/-! ## Claim C2: range planning -/

/-- C2: for every object length `L ≥ 0` and read-part size `P > 0`, the
download loop issues exactly `ceil(L/P)` ranged fetches (zero fetches iff
`L = 0`); the inclusive ranges, flattened in request order, enumerate
`0, 1, ..., L-1` exactly (so they are ascending, pairwise disjoint, and
cover `[0, L)`); every range has size `P` except the last, whose size is
`L - P*(n-1)`; and when `L = 0` the stream delivers zero bytes and closes
cleanly (no error). -/
theorem claim_C2_rangePlanning (fetch : Nat × Nat → FetchResult) (L P : Nat)
    (hP : 0 < P) :
    (getGoroutine fetch L P).fetched.length = (L + P - 1) / P
    ∧ ((getGoroutine fetch L P).fetched = [] ↔ L = 0)
    ∧ ((getGoroutine fetch L P).fetched.map
        (fun r => List.range' r.1 (rangeLen r))).flatten = List.range L
    ∧ (L ≠ 0 → (getGoroutine fetch L P).fetched.map rangeLen
        = List.replicate ((getGoroutine fetch L P).fetched.length - 1) P
          ++ [L - P * ((getGoroutine fetch L P).fetched.length - 1)])
    ∧ (L = 0 → (getGoroutine fetch L P).delivered = []
        ∧ (getGoroutine fetch L P).closed = some none) := by
  have hf := getGoroutine_fetched fetch L P
  refine ⟨?_, ?_, ?_, ?_, ?_⟩
  · rw [hf]
    exact planRanges_length hP
  · rw [hf]
    exact planRanges_eq_nil_iff hP
  · rw [hf]
    exact planRanges_flatten hP
  · intro hL
    rw [hf]
    exact planRanges_sizes hP hL
  · intro hL
    subst hL
    rw [getGoroutine_eq, planRanges_zero, runRanges_nil]
    exact ⟨rfl, rfl⟩

/-- Witness for C2 at `L = 5`, `P = 2` (three ranges: two of size 2, one
of size 1). -/
theorem claim_C2_rangePlanning_witness :
    0 < 2
    ∧ ((getGoroutine (fun _ => FetchResult.ok []) 5 2).fetched.length = (5 + 2 - 1) / 2
    ∧ ((getGoroutine (fun _ => FetchResult.ok []) 5 2).fetched = [] ↔ 5 = 0)
    ∧ ((getGoroutine (fun _ => FetchResult.ok []) 5 2).fetched.map
        (fun r => List.range' r.1 (rangeLen r))).flatten = List.range 5
    ∧ (5 ≠ 0 → (getGoroutine (fun _ => FetchResult.ok []) 5 2).fetched.map rangeLen
        = List.replicate ((getGoroutine (fun _ => FetchResult.ok []) 5 2).fetched.length - 1) 2
          ++ [5 - 2 * ((getGoroutine (fun _ => FetchResult.ok []) 5 2).fetched.length - 1)])
    ∧ (5 = 0 → (getGoroutine (fun _ => FetchResult.ok []) 5 2).delivered = []
        ∧ (getGoroutine (fun _ => FetchResult.ok []) 5 2).closed = some none)) :=
  ⟨by decide, claim_C2_rangePlanning (fun _ => FetchResult.ok []) 5 2 (by decide)⟩

/-! ## Claim C3: a failed range fetch (corrected)

The claim asserts that after a failed range fetch no further ranges are
fetched.  In the code the goroutine calls `pw.CloseWithError` but does not
return, so it keeps issuing the remaining ranged fetches; their results
are discarded because the pipe is already closed.  The error-delivery half
of the claim does hold: the stream is terminated with the fetch error
delivered as a read error, and `Get` itself returned without error. -/

theorem finalClose_closed {st : GetRun} {c : Option GoErr}
    (h : st.closed = some c) : finalClose st = st := by
  obtain ⟨del, cl, fe⟩ := st
  cases h
  rfl

/-- C3 counterexample: at `L = 4`, `P = 2` the fetch of the first range
`(0, 1)` fails, yet the loop still fetches the second range `(2, 3)` —
the fetch trace has both ranges, where the claim says no range after the
failed one is fetched.  (The error is nonetheless the one delivered to
the consumer.) -/
theorem claim_C3_counterexample :
    (getGoroutine
        (fun r => if r.1 = 0 then FetchResult.fail (GoErr.transport 1)
          else FetchResult.ok [7, 7]) 4 2).fetched = [(0, 1), (2, 3)]
    ∧ (getGoroutine
        (fun r => if r.1 = 0 then FetchResult.fail (GoErr.transport 1)
          else FetchResult.ok [7, 7]) 4 2).closed
        = some (some (.wrap "could not get data" (.transport 1))) := by
  constructor
  · rfl
  · rfl

/-- C3 (amended): if the metadata probe succeeded and the fetch of some
range fails (all earlier ranges succeeding), then `Get` still returns the
stream without a synchronous error; the stream is terminated with that
fetch error delivered to the consumer as a read error; exactly the bytes
of the ranges before the failure are delivered; but the goroutine still
issues every planned ranged fetch — ranges after the failure are fetched
and discarded, not skipped. -/
theorem claim_C3_downloadFailure (fetch : Nat × Nat → FetchResult)
    (L P : Nat) (rs1 rs2 : List (Nat × Nat)) (r : Nat × Nat) (e : GoErr)
    (hsplit : planRanges L P = rs1 ++ r :: rs2)
    (hfail : fetch r = .fail e)
    (hok : ∀ x ∈ rs1, (fetch x).isOk = true) :
    getStore (.ok L) fetch P = .ok (getGoroutine fetch L P)
    ∧ (getGoroutine fetch L P).closed
        = some (some (.wrap "could not get data" e))
    ∧ (getGoroutine fetch L P).delivered = (rs1.map (okData fetch)).flatten
    ∧ (getGoroutine fetch L P).fetched = rs1 ++ r :: rs2 := by
  have hok' : ∀ x ∈ rs1, ∃ d, fetch x = .ok d := by
    intro x hx
    have := hok x hx
    cases hfx : fetch x with
    | ok d => exact ⟨d, rfl⟩
    | fail e' => rw [hfx] at this; simp [FetchResult.isOk] at this
  have hrun : getGoroutine fetch L P =
      finalClose (runRanges fetch (rs1 ++ r :: rs2) initGet) := by
    rw [getGoroutine_eq, hsplit]
  refine ⟨rfl, ?_, ?_, ?_⟩ <;>
    rw [hrun, runRanges_fail_after rfl hok' hfail, finalClose_closed rfl] <;>
    simp [initGet]

/-- Witness for the amended C3: `L = 5`, `P = 2`, the fetch of the middle
range `(2, 3)` fails after the first range delivered `[9]`. -/
theorem claim_C3_downloadFailure_witness :
    planRanges 5 2 = [(0, 1)] ++ (2, 3) :: [(4, 4)]
    ∧ (fun (r : Nat × Nat) => if r.1 = 2 then FetchResult.fail (GoErr.transport 1)
        else FetchResult.ok [9]) (2, 3) = .fail (.transport 1)
    ∧ (getStore (.ok 5)
        (fun r => if r.1 = 2 then FetchResult.fail (GoErr.transport 1)
          else FetchResult.ok [9]) 2
        = .ok (getGoroutine
            (fun r => if r.1 = 2 then FetchResult.fail (GoErr.transport 1)
              else FetchResult.ok [9]) 5 2)
    ∧ (getGoroutine
        (fun r => if r.1 = 2 then FetchResult.fail (GoErr.transport 1)
          else FetchResult.ok [9]) 5 2).closed
        = some (some (.wrap "could not get data" (.transport 1)))
    ∧ (getGoroutine
        (fun r => if r.1 = 2 then FetchResult.fail (GoErr.transport 1)
          else FetchResult.ok [9]) 5 2).delivered
        = ([((0 : Nat), (1 : Nat))].map (okData
            (fun r => if r.1 = 2 then FetchResult.fail (GoErr.transport 1)
              else FetchResult.ok [9]))).flatten
    ∧ (getGoroutine
        (fun r => if r.1 = 2 then FetchResult.fail (GoErr.transport 1)
          else FetchResult.ok [9]) 5 2).fetched
        = [(0, 1)] ++ (2, 3) :: [(4, 4)]) :=
  ⟨by decide, rfl,
    claim_C3_downloadFailure
      (fun r => if r.1 = 2 then FetchResult.fail (GoErr.transport 1)
        else FetchResult.ok [9]) 5 2 [(0, 1)] [(4, 4)] (2, 3) (.transport 1)
      (by decide) rfl (by decide)⟩

/-! ## Lemmas on the upload pipeline -/

theorem wrapV2_ne_none (s : String) (e : Option GoErr) : wrapV2 s e ≠ none := by
  cases e <;> simp [wrapV2]

/-- With `fmt.Errorf` wrapping, the abort helper always reports an error,
so the failure epilogue always returns the abort-wrapped original error,
whatever the remote abort call did and whatever `onOk` is. -/
theorem abortRet_V2 (env : PutEnv) (orig onOk : Option GoErr) :
    abortRet wrapV2 env orig onOk = wrapV2 "could not abort upload" orig := by
  unfold abortRet abortMultipartUpload
  cases h : env.abortRemoteErr <;> simp [wrapV2]

theorem mkReadErrOut_V2_ret (env : PutEnv) (st : PutSt) (e : GoErr) :
    (mkReadErrOut wrapV2 env st e).ret
      = some (.wrap "could not abort upload"
          (.wrap ("could not read part " ++ toString st.i) e)) := by
  simp [mkReadErrOut, mkOut, abortRet_V2, wrapV2]

theorem mkUploadErrOut_V2_ret (env : PutEnv) (st : PutSt) (e : GoErr) :
    (mkUploadErrOut wrapV2 env st e).ret
      = some (.wrap "could not abort upload"
          (.wrap ("could not upload part " ++ toString st.i) e)) := by
  simp [mkUploadErrOut, mkOut, abortRet_V2, wrapV2]

theorem mkCeilingOut_V2_ret (env : PutEnv) (st : PutSt) :
    (mkCeilingOut wrapV2 env st).ret
      = some (.wrap "could not abort upload" (.msg ceilingMsg)) := by
  simp [mkCeilingOut, mkOut, abortRet_V2, wrapV2]

theorem flushIfNeeded_of_le {W : String → Option GoErr → Option GoErr}
    {env : PutEnv} {wbs n : Nat} {st : PutSt}
    (h : ¬ wbs < st.buf.length + n) :
    flushIfNeeded W env wbs n st = .inr st := by
  unfold flushIfNeeded
  rw [if_neg h]

theorem flushIfNeeded_of_err {W : String → Option GoErr → Option GoErr}
    {env : PutEnv} {wbs n : Nat} {st : PutSt} {e : GoErr}
    (h : wbs < st.buf.length + n)
    (hup : (uploadPartRecord (env.upload st.i) st.i).1 = .error e) :
    flushIfNeeded W env wbs n st = .inl (mkUploadErrOut W env st e) := by
  unfold flushIfNeeded
  rw [if_pos h, hup]

theorem flushIfNeeded_of_ok {W : String → Option GoErr → Option GoErr}
    {env : PutEnv} {wbs n : Nat} {st : PutSt} {rec : PartRecord}
    (h : wbs < st.buf.length + n)
    (hup : (uploadPartRecord (env.upload st.i) st.i).1 = .ok rec) :
    flushIfNeeded W env wbs n st =
      .inr { st with parts := st.parts ++ [rec],
                     payloads := st.payloads ++ [st.buf],
                     i := st.i + 1, buf := [] } := by
  unfold flushIfNeeded
  rw [if_pos h, hup]

theorem finishPut_of_err {W : String → Option GoErr → Option GoErr}
    {env : PutEnv} {st : PutSt} {e : GoErr}
    (hup : (uploadPartRecord (env.upload st.i) st.i).1 = .error e) :
    finishPut W env st = mkUploadErrOut W env st e := by
  unfold finishPut
  rw [hup]

theorem finishPut_of_ok {W : String → Option GoErr → Option GoErr}
    {env : PutEnv} {st : PutSt} {rec : PartRecord}
    (hup : (uploadPartRecord (env.upload st.i) st.i).1 = .ok rec) :
    finishPut W env st =
      (match env.completeErr with
        | some e => mkOut { st with parts := st.parts ++ [rec],
                                    payloads := st.payloads ++ [st.buf] }
            (some (.wrap "error while completing upload" e)) 0 1 .finished
        | none => mkOut { st with parts := st.parts ++ [rec],
                                  payloads := st.payloads ++ [st.buf] }
            none 0 1 .finished) := by
  unfold finishPut
  rw [hup]

theorem flushIfNeeded_inl {W : String → Option GoErr → Option GoErr}
    {env : PutEnv} {wbs n : Nat} {st : PutSt} {out : PutOut}
    (h : flushIfNeeded W env wbs n st = .inl out) :
    ∃ e, out = mkUploadErrOut W env st e := by
  by_cases hc : wbs < st.buf.length + n
  · cases hup : (uploadPartRecord (env.upload st.i) st.i).1 with
    | error e =>
        rw [flushIfNeeded_of_err hc hup] at h
        injection h with h
        exact ⟨e, h.symm⟩
    | ok rec =>
        rw [flushIfNeeded_of_ok hc hup] at h
        simp at h
  · rw [flushIfNeeded_of_le hc] at h
    simp at h

/-! ### Exactly-one finalization (C4): Abort/Complete call counts -/

theorem finishPut_counts (W : String → Option GoErr → Option GoErr)
    (env : PutEnv) (st : PutSt) :
    (finishPut W env st).abortCalls + (finishPut W env st).completeCalls = 1 := by
  cases hup : (uploadPartRecord (env.upload st.i) st.i).1 with
  | error e =>
      rw [finishPut_of_err hup]
      simp [mkUploadErrOut, mkOut]
  | ok rec =>
      rw [finishPut_of_ok hup]
      cases env.completeErr <;> simp [mkOut]

theorem finishChunk_counts (W : String → Option GoErr → Option GoErr)
    (env : PutEnv) (wbs : Nat) (data : List Nat) (st : PutSt) :
    (finishChunk W env wbs data st).abortCalls
      + (finishChunk W env wbs data st).completeCalls = 1 := by
  unfold finishChunk
  by_cases hc : wbs < st.buf.length + data.length
  · cases hup : (uploadPartRecord (env.upload st.i) st.i).1 with
    | error e =>
        rw [flushIfNeeded_of_err hc hup]
        simp [mkUploadErrOut, mkOut]
    | ok rec =>
        rw [flushIfNeeded_of_ok hc hup]
        exact finishPut_counts W env _
  · rw [flushIfNeeded_of_le hc]
    exact finishPut_counts W env _

theorem putLoop_counts (W : String → Option GoErr → Option GoErr)
    (env : PutEnv) (wbs : Nat) :
    ∀ (evs : List ReadEv) (st : PutSt),
      (putLoop W env wbs evs st).abortCalls
        + (putLoop W env wbs evs st).completeCalls = 1 := by
  intro evs
  induction evs with
  | nil =>
      intro st
      simp only [putLoop]
      by_cases hI : awsMaxParts < st.i
      · rw [if_pos hI]
        simp [mkCeilingOut, mkOut]
      · rw [if_neg hI]
        exact finishChunk_counts W env wbs [] st
  | cons ev rest ih =>
      intro st
      by_cases hI : awsMaxParts < st.i
      · simp only [putLoop]
        rw [if_pos hI]
        simp [mkCeilingOut, mkOut]
      · cases ev with
        | rerr e =>
            simp only [putLoop]
            rw [if_neg hI]
            simp [mkReadErrOut, mkOut]
        | chunk data eof =>
            cases eof with
            | true =>
                simp only [putLoop]
                rw [if_neg hI]
                exact finishChunk_counts W env wbs data st
            | false =>
                simp only [putLoop]
                rw [if_neg hI]
                by_cases hc : wbs < st.buf.length + data.length
                · cases hup : (uploadPartRecord (env.upload st.i) st.i).1 with
                  | error e =>
                      rw [flushIfNeeded_of_err hc hup]
                      simp [mkUploadErrOut, mkOut]
                  | ok rec =>
                      rw [flushIfNeeded_of_ok hc hup]
                      exact ih _
                · rw [flushIfNeeded_of_le hc]
                  exact ih _

/-! ## Claim C4: exactly-one finalization -/

/-- C4: in every `Put` call whose `CreateMultipartUpload` succeeded,
exactly one of `CompleteMultipartUpload` / `AbortMultipartUpload` is
attempted before `Put` returns — never both, never neither — on every
path (read error, retry exhaustion, part-count ceiling, success), in both
SDK variants. -/
theorem claim_C4_exactlyOneFinalization (env : PutEnv) (wbs : Nat)
    (evs : List ReadEv) (hc : env.createErr = none) :
    (putRunV1 env wbs evs).abortCalls + (putRunV1 env wbs evs).completeCalls = 1
    ∧ (putRunV2 env wbs evs).abortCalls + (putRunV2 env wbs evs).completeCalls = 1 := by
  unfold putRunV1 putRunV2 putRun
  rw [hc]
  exact ⟨putLoop_counts wrapV1 env wbs evs initPut,
    putLoop_counts wrapV2 env wbs evs initPut⟩

/-- Witness for C4: a one-chunk upload in the all-success environment. -/
theorem claim_C4_exactlyOneFinalization_witness :
    goodEnv.createErr = none
    ∧ ((putRunV1 goodEnv 4 [.chunk [1] true]).abortCalls
        + (putRunV1 goodEnv 4 [.chunk [1] true]).completeCalls = 1
    ∧ (putRunV2 goodEnv 4 [.chunk [1] true]).abortCalls
        + (putRunV2 goodEnv 4 [.chunk [1] true]).completeCalls = 1) :=
  ⟨rfl, claim_C4_exactlyOneFinalization goodEnv 4 [.chunk [1] true] rfl⟩

/-! ### Stored bytes (C1): a successful Put uploads exactly the input -/

theorem finishPut_payloads_V2 {env : PutEnv} {st : PutSt}
    (hret : (finishPut wrapV2 env st).ret = none) :
    (finishPut wrapV2 env st).payloads.flatten
      = st.payloads.flatten ++ st.buf := by
  cases hup : (uploadPartRecord (env.upload st.i) st.i).1 with
  | error e =>
      rw [finishPut_of_err hup, mkUploadErrOut_V2_ret] at hret
      cases hret
  | ok rec =>
      rw [finishPut_of_ok hup] at hret ⊢
      cases hcomp : env.completeErr with
      | some e =>
          rw [hcomp] at hret
          simp [mkOut] at hret
      | none => simp [mkOut]

theorem finishChunk_payloads_V2 {env : PutEnv} {wbs : Nat} {data : List Nat}
    {st : PutSt} (hret : (finishChunk wrapV2 env wbs data st).ret = none) :
    (finishChunk wrapV2 env wbs data st).payloads.flatten
      = st.payloads.flatten ++ st.buf ++ data := by
  unfold finishChunk at hret ⊢
  by_cases hc : wbs < st.buf.length + data.length
  · cases hup : (uploadPartRecord (env.upload st.i) st.i).1 with
    | error e =>
        rw [flushIfNeeded_of_err hc hup, mkUploadErrOut_V2_ret] at hret
        cases hret
    | ok rec =>
        rw [flushIfNeeded_of_ok hc hup] at hret ⊢
        rw [finishPut_payloads_V2 hret]
        simp [appendChunk]
  · rw [flushIfNeeded_of_le hc] at hret ⊢
    rw [finishPut_payloads_V2 hret]
    simp [appendChunk]

/-- Whenever the buffering loop returns without error, the concatenation
of the payloads it handed to `uploadPart` extends the already-uploaded
bytes with the buffered bytes plus everything the reader delivers. -/
theorem putLoop_payloads_V2 (env : PutEnv) (wbs : Nat) :
    ∀ (evs : List ReadEv) (st : PutSt),
      (putLoop wrapV2 env wbs evs st).ret = none →
      (putLoop wrapV2 env wbs evs st).payloads.flatten
        = st.payloads.flatten ++ st.buf ++ inputBytes evs := by
  intro evs
  induction evs with
  | nil =>
      intro st hret
      simp only [putLoop] at hret ⊢
      by_cases hI : awsMaxParts < st.i
      · rw [if_pos hI, mkCeilingOut_V2_ret] at hret
        cases hret
      · rw [if_neg hI] at hret ⊢
        rw [finishChunk_payloads_V2 hret]
        simp [inputBytes]
  | cons ev rest ih =>
      intro st hret
      by_cases hI : awsMaxParts < st.i
      · simp only [putLoop] at hret
        rw [if_pos hI, mkCeilingOut_V2_ret] at hret
        cases hret
      · cases ev with
        | rerr e =>
            simp only [putLoop] at hret
            rw [if_neg hI, mkReadErrOut_V2_ret] at hret
            cases hret
        | chunk data eof =>
            cases eof with
            | true =>
                simp only [putLoop] at hret ⊢
                rw [if_neg hI] at hret ⊢
                rw [finishChunk_payloads_V2 hret]
                simp [inputBytes]
            | false =>
                simp only [putLoop] at hret ⊢
                rw [if_neg hI] at hret ⊢
                by_cases hc : wbs < st.buf.length + data.length
                · cases hup : (uploadPartRecord (env.upload st.i) st.i).1 with
                  | error e =>
                      rw [flushIfNeeded_of_err hc hup, mkUploadErrOut_V2_ret] at hret
                      cases hret
                  | ok rec =>
                      rw [flushIfNeeded_of_ok hc hup] at hret ⊢
                      rw [ih _ hret]
                      simp [appendChunk, inputBytes]
                · rw [flushIfNeeded_of_le hc] at hret ⊢
                  rw [ih _ hret]
                  simp [appendChunk, inputBytes]

/-! ### The download of an ideally-served object returns it whole -/

theorem okData_ideal (obj : List Nat) (r : Nat × Nat) :
    okData (idealFetch obj) r = (obj.drop r.1).take (rangeLen r) := rfl

theorem slices_flatten_full (obj : List Nat) (P : Nat) (hP : 0 < P) (q : Nat) :
    (((List.range q).map (fun i => ((i * P, i * P + P - 1) : Nat × Nat))).map
      (okData (idealFetch obj))).flatten = obj.take (q * P) := by
  induction q with
  | zero => simp
  | succ q ih =>
      rw [List.range_succ]
      simp only [List.map_append, List.flatten_append, ih, List.map_cons,
        List.map_nil, List.flatten_cons, List.flatten_nil, List.append_nil]
      rw [okData_ideal]
      have hlen : rangeLen (q * P, q * P + P - 1) = P := by
        unfold rangeLen
        simp only
        omega
      rw [hlen, Nat.succ_mul, List.take_add]

theorem planRanges_ideal_flatten (obj : List Nat) (P : Nat) (hP : 0 < P) :
    ((planRanges obj.length P).map (okData (idealFetch obj))).flatten = obj := by
  have hmod := Nat.div_add_mod obj.length P
  have hmod2 : obj.length / P * P + obj.length % P = obj.length := by
    rw [Nat.mul_comm (obj.length / P) P]
    exact hmod
  unfold planRanges
  rw [List.map_append, List.flatten_append, slices_flatten_full obj P hP]
  by_cases hs : 0 < obj.length % P
  · rw [if_pos hs]
    simp only [List.map_cons, List.map_nil, List.flatten_cons, List.flatten_nil,
      List.append_nil]
    rw [okData_ideal]
    have hlen : rangeLen ((obj.length / P) * P,
        (obj.length / P) * P + obj.length % P - 1) = obj.length % P := by
      unfold rangeLen
      simp only
      omega
    rw [hlen, ← List.take_add, hmod2, List.take_length]
  · rw [if_neg hs]
    simp only [List.map_nil, List.flatten_nil, List.append_nil]
    have h3 : obj.length / P * P = obj.length := by omega
    rw [h3, List.take_length]

theorem getGoroutine_ideal (obj : List Nat) (P : Nat) (hP : 0 < P) :
    (getGoroutine (idealFetch obj) obj.length P).delivered = obj
    ∧ (getGoroutine (idealFetch obj) obj.length P).closed = some none := by
  have hok : ∀ r ∈ planRanges obj.length P, ∃ d, idealFetch obj r = FetchResult.ok d :=
    fun r _ => ⟨(obj.drop r.1).take (rangeLen r), rfl⟩
  rw [getGoroutine_eq, runRanges_all_ok rfl hok]
  constructor
  · simp [finalClose, initGet, planRanges_ideal_flatten obj P hP]
  · simp [finalClose, initGet]

/-! ## Claim C1: round trip -/

/-- C1: for every input stream and remote environment in which the v2
`Put` returns without error, reading the stored object (the concatenation
of the uploaded part payloads, served by an ideal ranged-read transport)
back through the download pipeline at any read-part size `P > 0` delivers
exactly the bytes the reader produced, and the stream closes cleanly.
The size hypotheses (`chunkSizesLe`, `tbs ≤ wbs`) record Go's reader
contract under which the buffer model is exact; the input may be empty,
shorter than one part, exactly one part, or many parts plus a remainder. -/
theorem claim_C1_roundTrip (env : PutEnv) (wbs tbs P : Nat) (evs : List ReadEv)
    (hP : 0 < P) (_htw : tbs ≤ wbs) (_hsz : chunkSizesLe tbs evs = true)
    (hok : (putRunV2 env wbs evs).ret = none) :
    (getGoroutine (idealFetch ((putRunV2 env wbs evs).payloads.flatten))
        ((putRunV2 env wbs evs).payloads.flatten).length P).delivered
      = inputBytes evs
    ∧ (getGoroutine (idealFetch ((putRunV2 env wbs evs).payloads.flatten))
        ((putRunV2 env wbs evs).payloads.flatten).length P).closed = some none := by
  have hobj : (putRunV2 env wbs evs).payloads.flatten = inputBytes evs := by
    unfold putRunV2 putRun at hok ⊢
    revert hok
    cases hcr : env.createErr with
    | some e =>
        intro hok
        simp at hok
    | none =>
        intro hok
        have h := putLoop_payloads_V2 env wbs evs initPut hok
        have hgoal : (putLoop wrapV2 env wbs evs initPut).payloads.flatten
            = inputBytes evs := by
          simpa [initPut] using h
        exact hgoal
  rw [hobj]
  exact getGoroutine_ideal (inputBytes evs) P hP

/-- Witness for C1: two reads, a flush and a remainder part
(`[1,2,3]` then `[4,5]` with EOF at write-part size 4). -/
theorem claim_C1_roundTrip_witness :
    0 < 2 ∧ 3 ≤ 4
    ∧ chunkSizesLe 3 [.chunk [1, 2, 3] false, .chunk [4, 5] true] = true
    ∧ (putRunV2 goodEnv 4 [.chunk [1, 2, 3] false, .chunk [4, 5] true]).ret = none
    ∧ ((getGoroutine (idealFetch ((putRunV2 goodEnv 4
          [.chunk [1, 2, 3] false, .chunk [4, 5] true]).payloads.flatten))
        ((putRunV2 goodEnv 4
          [.chunk [1, 2, 3] false, .chunk [4, 5] true]).payloads.flatten).length 2).delivered
      = inputBytes [.chunk [1, 2, 3] false, .chunk [4, 5] true]
    ∧ (getGoroutine (idealFetch ((putRunV2 goodEnv 4
          [.chunk [1, 2, 3] false, .chunk [4, 5] true]).payloads.flatten))
        ((putRunV2 goodEnv 4
          [.chunk [1, 2, 3] false, .chunk [4, 5] true]).payloads.flatten).length 2).closed
      = some none) :=
  ⟨by decide, by decide, by decide, by decide,
    claim_C1_roundTrip goodEnv 4 3 2 [.chunk [1, 2, 3] false, .chunk [4, 5] true]
      (by decide) (by decide) (by decide) (by decide)⟩

/-! ### Part numbering (C7) and the v2 abort wrapper (C10) -/

theorem range'_snoc (s n : Nat) :
    List.range' s n ++ [s + n] = List.range' s (n + 1) := by
  have h := List.range'_append_1 s n 1
  rw [List.range'_one] at h
  rw [h, Nat.add_comm]

/-- Lemma: `uploadPart` tags its part record with the given part number. -/
theorem uploadPartRecord_pn {f : Nat → UpOutcome} {pn : Nat} {rec : PartRecord}
    (h : (uploadPartRecord f pn).1 = .ok rec) : rec.partNumber = pn := by
  unfold uploadPartRecord at h
  rcases hu : uploadAttempt f 1 (maxUploadRetries - 1) with ⟨res, c⟩
  rw [hu] at h
  cases res with
  | ok etag =>
      simp at h
      rw [← h]
  | error e => simp at h

theorem appendChunk_i (d : List Nat) (st : PutSt) : (appendChunk d st).i = st.i := rfl

theorem appendChunk_parts (d : List Nat) (st : PutSt) :
    (appendChunk d st).parts = st.parts := rfl

theorem appendChunk_payloads (d : List Nat) (st : PutSt) :
    (appendChunk d st).payloads = st.payloads := rfl

theorem finishPut_numbering_V2 {env : PutEnv} {st : PutSt}
    (h1 : 1 ≤ st.i)
    (h2 : st.parts.map (fun p => p.partNumber) = List.range' 1 (st.i - 1))
    (h3 : st.parts.length = st.payloads.length)
    (hret : (finishPut wrapV2 env st).ret = none) :
    (finishPut wrapV2 env st).parts.map (fun p => p.partNumber)
        = List.range' 1 (finishPut wrapV2 env st).parts.length
    ∧ (finishPut wrapV2 env st).parts.length
        = (finishPut wrapV2 env st).payloads.length := by
  cases hup : (uploadPartRecord (env.upload st.i) st.i).1 with
  | error e =>
      rw [finishPut_of_err hup, mkUploadErrOut_V2_ret] at hret
      cases hret
  | ok rec =>
      have hpn := uploadPartRecord_pn hup
      have hlen : st.parts.length = st.i - 1 := by
        have hl := congrArg List.length h2
        simpa using hl
      rw [finishPut_of_ok hup] at hret ⊢
      revert hret
      cases hcomp : env.completeErr with
      | some e =>
          intro hret
          simp [mkOut] at hret
      | none =>
          intro _
          constructor
          · simp only [mkOut, List.map_append, h2, List.map_cons, List.map_nil,
              hpn, List.length_append, List.length_cons, List.length_nil]
            rw [hlen]
            have hsn := range'_snoc 1 (st.i - 1)
            rw [show 1 + (st.i - 1) = st.i from by omega] at hsn
            rw [hsn]
          · simp [mkOut, h3]

theorem finishChunk_numbering_V2 {env : PutEnv} {wbs : Nat} {data : List Nat}
    {st : PutSt}
    (h1 : 1 ≤ st.i)
    (h2 : st.parts.map (fun p => p.partNumber) = List.range' 1 (st.i - 1))
    (h3 : st.parts.length = st.payloads.length)
    (hret : (finishChunk wrapV2 env wbs data st).ret = none) :
    (finishChunk wrapV2 env wbs data st).parts.map (fun p => p.partNumber)
        = List.range' 1 (finishChunk wrapV2 env wbs data st).parts.length
    ∧ (finishChunk wrapV2 env wbs data st).parts.length
        = (finishChunk wrapV2 env wbs data st).payloads.length := by
  unfold finishChunk at hret ⊢
  by_cases hc : wbs < st.buf.length + data.length
  · cases hup : (uploadPartRecord (env.upload st.i) st.i).1 with
    | error e =>
        rw [flushIfNeeded_of_err hc hup, mkUploadErrOut_V2_ret] at hret
        cases hret
    | ok rec =>
        have hpn := uploadPartRecord_pn hup
        rw [flushIfNeeded_of_ok hc hup] at hret ⊢
        refine finishPut_numbering_V2 ?_ ?_ ?_ hret
        · show 1 ≤ st.i + 1
          omega
        · show (st.parts ++ [rec]).map (fun p => p.partNumber)
            = List.range' 1 (st.i + 1 - 1)
          simp only [List.map_append, h2, List.map_cons, List.map_nil, hpn,
            Nat.add_sub_cancel]
          have hsn := range'_snoc 1 (st.i - 1)
          rw [show 1 + (st.i - 1) = st.i from by omega] at hsn
          rw [hsn, show st.i - 1 + 1 = st.i from by omega]
        · show (st.parts ++ [rec]).length = (st.payloads ++ [st.buf]).length
          simp [h3]
  · rw [flushIfNeeded_of_le hc] at hret ⊢
    exact finishPut_numbering_V2
      (by rw [appendChunk_i]; exact h1)
      (by rw [appendChunk_parts, appendChunk_i]; exact h2)
      (by rw [appendChunk_parts, appendChunk_payloads]; exact h3)
      hret

theorem putLoop_numbering_V2 (env : PutEnv) (wbs : Nat) :
    ∀ (evs : List ReadEv) (st : PutSt), 1 ≤ st.i →
      st.parts.map (fun p => p.partNumber) = List.range' 1 (st.i - 1) →
      st.parts.length = st.payloads.length →
      (putLoop wrapV2 env wbs evs st).ret = none →
      (putLoop wrapV2 env wbs evs st).parts.map (fun p => p.partNumber)
          = List.range' 1 (putLoop wrapV2 env wbs evs st).parts.length
      ∧ (putLoop wrapV2 env wbs evs st).parts.length
          = (putLoop wrapV2 env wbs evs st).payloads.length := by
  intro evs
  induction evs with
  | nil =>
      intro st h1 h2 h3 hret
      simp only [putLoop] at hret ⊢
      by_cases hI : awsMaxParts < st.i
      · rw [if_pos hI, mkCeilingOut_V2_ret] at hret
        cases hret
      · rw [if_neg hI] at hret ⊢
        exact finishChunk_numbering_V2 h1 h2 h3 hret
  | cons ev rest ih =>
      intro st h1 h2 h3 hret
      by_cases hI : awsMaxParts < st.i
      · simp only [putLoop] at hret
        rw [if_pos hI, mkCeilingOut_V2_ret] at hret
        cases hret
      · cases ev with
        | rerr e =>
            simp only [putLoop] at hret
            rw [if_neg hI, mkReadErrOut_V2_ret] at hret
            cases hret
        | chunk data eof =>
            cases eof with
            | true =>
                simp only [putLoop] at hret ⊢
                rw [if_neg hI] at hret ⊢
                exact finishChunk_numbering_V2 h1 h2 h3 hret
            | false =>
                simp only [putLoop] at hret ⊢
                rw [if_neg hI] at hret ⊢
                by_cases hc : wbs < st.buf.length + data.length
                · cases hup : (uploadPartRecord (env.upload st.i) st.i).1 with
                  | error e =>
                      rw [flushIfNeeded_of_err hc hup, mkUploadErrOut_V2_ret] at hret
                      cases hret
                  | ok rec =>
                      have hpn := uploadPartRecord_pn hup
                      rw [flushIfNeeded_of_ok hc hup] at hret ⊢
                      refine ih _ ?_ ?_ ?_ hret
                      · show 1 ≤ st.i + 1
                        omega
                      · show (st.parts ++ [rec]).map (fun p => p.partNumber)
                          = List.range' 1 (st.i + 1 - 1)
                        simp only [List.map_append, h2, List.map_cons,
                          List.map_nil, hpn, Nat.add_sub_cancel]
                        have hsn := range'_snoc 1 (st.i - 1)
                        rw [show 1 + (st.i - 1) = st.i from by omega] at hsn
                        rw [hsn, show st.i - 1 + 1 = st.i from by omega]
                      · show (st.parts ++ [rec]).length
                          = (st.payloads ++ [st.buf]).length
                        simp [h3]
                · rw [flushIfNeeded_of_le hc] at hret ⊢
                  refine ih _ ?_ ?_ ?_ hret
                  · rw [appendChunk_i]
                    exact h1
                  · rw [appendChunk_parts, appendChunk_i]
                    exact h2
                  · rw [appendChunk_parts, appendChunk_payloads]
                    exact h3

theorem finishPut_abort_wrap_V2 {env : PutEnv} {st : PutSt}
    (hab : 1 ≤ (finishPut wrapV2 env st).abortCalls) :
    ∃ inner, (finishPut wrapV2 env st).ret
      = some (.wrap "could not abort upload" inner) := by
  cases hup : (uploadPartRecord (env.upload st.i) st.i).1 with
  | error e =>
      exact ⟨_, by rw [finishPut_of_err hup, mkUploadErrOut_V2_ret]⟩
  | ok rec =>
      rw [finishPut_of_ok hup] at hab
      revert hab
      cases hcomp : env.completeErr with
      | some e =>
          intro hab
          simp [mkOut] at hab
      | none =>
          intro hab
          simp [mkOut] at hab

theorem finishChunk_abort_wrap_V2 {env : PutEnv} {wbs : Nat} {data : List Nat}
    {st : PutSt}
    (hab : 1 ≤ (finishChunk wrapV2 env wbs data st).abortCalls) :
    ∃ inner, (finishChunk wrapV2 env wbs data st).ret
      = some (.wrap "could not abort upload" inner) := by
  unfold finishChunk at hab ⊢
  by_cases hc : wbs < st.buf.length + data.length
  · cases hup : (uploadPartRecord (env.upload st.i) st.i).1 with
    | error e =>
        rw [flushIfNeeded_of_err hc hup]
        exact ⟨_, by rw [mkUploadErrOut_V2_ret]⟩
    | ok rec =>
        rw [flushIfNeeded_of_ok hc hup] at hab ⊢
        exact finishPut_abort_wrap_V2 hab
  · rw [flushIfNeeded_of_le hc] at hab ⊢
    exact finishPut_abort_wrap_V2 hab

/-- With `fmt.Errorf` wrapping, every loop exit that issued an Abort
returns the "could not abort upload" wrapper. -/
theorem putLoop_abort_wrap_V2 (env : PutEnv) (wbs : Nat) :
    ∀ (evs : List ReadEv) (st : PutSt),
      1 ≤ (putLoop wrapV2 env wbs evs st).abortCalls →
      ∃ inner, (putLoop wrapV2 env wbs evs st).ret
        = some (.wrap "could not abort upload" inner) := by
  intro evs
  induction evs with
  | nil =>
      intro st hab
      simp only [putLoop] at hab ⊢
      by_cases hI : awsMaxParts < st.i
      · rw [if_pos hI]
        exact ⟨_, by rw [mkCeilingOut_V2_ret]⟩
      · rw [if_neg hI] at hab ⊢
        exact finishChunk_abort_wrap_V2 hab
  | cons ev rest ih =>
      intro st hab
      by_cases hI : awsMaxParts < st.i
      · simp only [putLoop]
        rw [if_pos hI]
        exact ⟨_, by rw [mkCeilingOut_V2_ret]⟩
      · cases ev with
        | rerr e =>
            simp only [putLoop]
            rw [if_neg hI]
            exact ⟨_, by rw [mkReadErrOut_V2_ret]⟩
        | chunk data eof =>
            cases eof with
            | true =>
                simp only [putLoop] at hab ⊢
                rw [if_neg hI] at hab ⊢
                exact finishChunk_abort_wrap_V2 hab
            | false =>
                simp only [putLoop] at hab ⊢
                rw [if_neg hI] at hab ⊢
                by_cases hc : wbs < st.buf.length + data.length
                · cases hup : (uploadPartRecord (env.upload st.i) st.i).1 with
                  | error e =>
                      rw [flushIfNeeded_of_err hc hup]
                      exact ⟨_, by rw [mkUploadErrOut_V2_ret]⟩
                  | ok rec =>
                      rw [flushIfNeeded_of_ok hc hup] at hab ⊢
                      exact ih _ hab
                · rw [flushIfNeeded_of_le hc] at hab ⊢
                  exact ih _ hab

/-- A v2 run that returns nil attempted (exactly one) Complete. -/
theorem putLoop_none_complete_V2 (env : PutEnv) (wbs : Nat)
    (evs : List ReadEv) (st : PutSt)
    (h : (putLoop wrapV2 env wbs evs st).ret = none) :
    (putLoop wrapV2 env wbs evs st).completeCalls = 1 := by
  have hc := putLoop_counts wrapV2 env wbs evs st
  rcases Nat.eq_zero_or_pos (putLoop wrapV2 env wbs evs st).abortCalls with h0 | h1
  · omega
  · obtain ⟨inner, hi⟩ := putLoop_abort_wrap_V2 env wbs evs st h1
    rw [h] at hi
    cases hi

/-! ## Claim C7: dense part numbering -/

/-- C7: whenever the v2 `Put` returns without error, Complete was called
exactly once, and the part records passed to it are numbered exactly
`1, 2, ..., n` in ascending order with no gaps, where `n` is the number of
parts the buffering loop uploaded. -/
theorem claim_C7_densePartNumbering (env : PutEnv) (wbs : Nat)
    (evs : List ReadEv) (hret : (putRunV2 env wbs evs).ret = none) :
    (putRunV2 env wbs evs).completeCalls = 1
    ∧ (putRunV2 env wbs evs).parts.map (fun p => p.partNumber)
        = List.range' 1 (putRunV2 env wbs evs).parts.length
    ∧ (putRunV2 env wbs evs).parts.length
        = (putRunV2 env wbs evs).payloads.length := by
  unfold putRunV2 putRun at hret ⊢
  revert hret
  cases hcr : env.createErr with
  | some e =>
      intro hret
      simp at hret
  | none =>
      intro hret
      refine ⟨putLoop_none_complete_V2 env wbs evs initPut hret, ?_⟩
      exact putLoop_numbering_V2 env wbs evs initPut (by decide) rfl rfl hret

/-- Witness for C7: a two-part upload. -/
theorem claim_C7_densePartNumbering_witness :
    (putRunV2 goodEnv 4 [.chunk [1, 2, 3] false, .chunk [4, 5] true]).ret = none
    ∧ ((putRunV2 goodEnv 4 [.chunk [1, 2, 3] false, .chunk [4, 5] true]).completeCalls = 1
    ∧ (putRunV2 goodEnv 4 [.chunk [1, 2, 3] false, .chunk [4, 5] true]).parts.map
        (fun p => p.partNumber)
      = List.range' 1 (putRunV2 goodEnv 4
          [.chunk [1, 2, 3] false, .chunk [4, 5] true]).parts.length
    ∧ (putRunV2 goodEnv 4 [.chunk [1, 2, 3] false, .chunk [4, 5] true]).parts.length
      = (putRunV2 goodEnv 4
          [.chunk [1, 2, 3] false, .chunk [4, 5] true]).payloads.length) :=
  ⟨by decide, claim_C7_densePartNumbering goodEnv 4
    [.chunk [1, 2, 3] false, .chunk [4, 5] true] (by decide)⟩

/-! ## Claim C10: abort result in the two SDK variants -/

/-- C10: the v2 `abortMultipartUpload` always returns a non-nil error,
even when the remote abort succeeded, because `fmt.Errorf` wraps the
possibly-nil error unconditionally; consequently every failing v2 `Put`
path that triggered an abort returns the abort-wrapper error rather than
the plain original error.  The v1 variant (`errors.Wrap`) instead returns
nil on a successful abort. -/
theorem claim_C10_v2AbortAlwaysErrors :
    (∀ env : PutEnv, (abortMultipartUpload wrapV2 env).isSome = true)
    ∧ (∀ env : PutEnv, env.abortRemoteErr = none →
        abortMultipartUpload wrapV1 env = none)
    ∧ (∀ (env : PutEnv) (wbs : Nat) (evs : List ReadEv),
        1 ≤ (putRunV2 env wbs evs).abortCalls →
        ∃ inner, (putRunV2 env wbs evs).ret
          = some (.wrap "could not abort upload" inner)) := by
  refine ⟨?_, ?_, ?_⟩
  · intro env
    unfold abortMultipartUpload
    cases env.abortRemoteErr <;> simp [wrapV2]
  · intro env h
    unfold abortMultipartUpload
    rw [h]
    rfl
  · intro env wbs evs hab
    unfold putRunV2 putRun at hab ⊢
    revert hab
    cases hcr : env.createErr with
    | some e =>
        intro hab
        simp at hab
    | none =>
        intro hab
        exact putLoop_abort_wrap_V2 env wbs evs initPut hab

/-- Witness for C10: the all-success environment (remote abort would
succeed, yet the v2 helper reports an error), and a v2 run aborted by a
read error, whose returned error is the abort wrapper. -/
theorem claim_C10_v2AbortAlwaysErrors_witness :
    (abortMultipartUpload wrapV2 goodEnv).isSome = true
    ∧ (goodEnv.abortRemoteErr = none ∧ abortMultipartUpload wrapV1 goodEnv = none)
    ∧ (1 ≤ (putRunV2 goodEnv 4 [.rerr (.transport 7)]).abortCalls
      ∧ ∃ inner, (putRunV2 goodEnv 4 [.rerr (.transport 7)]).ret
          = some (.wrap "could not abort upload" inner)) :=
  ⟨claim_C10_v2AbortAlwaysErrors.1 goodEnv,
    ⟨rfl, claim_C10_v2AbortAlwaysErrors.2.1 goodEnv rfl⟩,
    ⟨by decide, claim_C10_v2AbortAlwaysErrors.2.2 goodEnv 4
      [.rerr (.transport 7)] (by decide)⟩⟩

/-! ### The retry loop of uploadPart (C6) -/

theorem uploadAttempt_calls_le (f : Nat → UpOutcome) :
    ∀ (rem t : Nat), (uploadAttempt f t rem).2 ≤ t + rem := by
  intro rem
  induction rem with
  | zero =>
      intro t
      unfold uploadAttempt
      cases f t <;> simp
  | succ r ih =>
      intro t
      unfold uploadAttempt
      cases f t with
      | ok etag => simp
      | fail e =>
          have := ih (t + 1)
          simp only
          omega

theorem uploadAttempt_calls_ge (f : Nat → UpOutcome) :
    ∀ (rem t : Nat), t ≤ (uploadAttempt f t rem).2 := by
  intro rem
  induction rem with
  | zero =>
      intro t
      unfold uploadAttempt
      cases f t <;> simp
  | succ r ih =>
      intro t
      unfold uploadAttempt
      cases f t with
      | ok etag => simp
      | fail e =>
          have := ih (t + 1)
          simp only
          omega

/-- If the attempts before `k` fail and attempt `k` succeeds, the retry
loop stops at attempt `k` with that attempt's entity tag. -/
theorem uploadAttempt_ok_at (f : Nat → UpOutcome) :
    ∀ (rem t k : Nat) (et : String), t ≤ k → k ≤ t + rem →
      (∀ j, t ≤ j → j < k → ∃ e, f j = .fail e) → f k = .ok et →
      uploadAttempt f t rem = (.ok et, k) := by
  intro rem
  induction rem with
  | zero =>
      intro t k et h1 h2 hprev hk
      have : k = t := by omega
      subst this
      unfold uploadAttempt
      rw [hk]
  | succ r ih =>
      intro t k et h1 h2 hprev hk
      by_cases hkt : k = t
      · subst hkt
        unfold uploadAttempt
        rw [hk]
      · obtain ⟨e, he⟩ := hprev t (Nat.le_refl t) (by omega)
        unfold uploadAttempt
        rw [he]
        exact ih (t + 1) k et (by omega) (by omega)
          (fun j hj1 hj2 => hprev j (by omega) hj2) hk

/-- If every attempt in the window fails, the loop makes all its attempts
and returns the error built from the last failure. -/
theorem uploadAttempt_all_fail (f : Nat → UpOutcome) :
    ∀ (rem t : Nat),
      (∀ j, t ≤ j → j ≤ t + rem → ∃ e, f j = .fail e) →
      ∃ e, f (t + rem) = .fail e
        ∧ uploadAttempt f t rem = (.error (uploadFailErr (t + rem) e), t + rem) := by
  intro rem
  induction rem with
  | zero =>
      intro t h
      obtain ⟨e, he⟩ := h t (Nat.le_refl t) (by omega)
      refine ⟨e, by simpa using he, ?_⟩
      unfold uploadAttempt
      simp only [Nat.add_zero]
      rw [he]
  | succ r ih =>
      intro t h
      obtain ⟨e0, he0⟩ := h t (Nat.le_refl t) (by omega)
      obtain ⟨e, he, hrec⟩ := ih (t + 1) (fun j hj1 hj2 => h j (by omega) (by omega))
      refine ⟨e, ?_, ?_⟩
      · rw [show t + (r + 1) = t + 1 + r from by omega]
        exact he
      · unfold uploadAttempt
        rw [he0]
        rw [show t + (r + 1) = t + 1 + r from by omega]
        exact hrec

/-- If the loop returned an error, every attempt in its window failed. -/
theorem uploadAttempt_error_all_fail (f : Nat → UpOutcome) :
    ∀ (rem t : Nat) (e : GoErr) (c : Nat),
      uploadAttempt f t rem = (.error e, c) →
      ∀ j, t ≤ j → j ≤ t + rem → ∃ e', f j = .fail e' := by
  intro rem
  induction rem with
  | zero =>
      intro t e c h j hj1 hj2
      have : j = t := by omega
      subst this
      unfold uploadAttempt at h
      cases hf : f j with
      | ok etag => rw [hf] at h; cases h
      | fail e' => exact ⟨e', rfl⟩
  | succ r ih =>
      intro t e c h j hj1 hj2
      unfold uploadAttempt at h
      cases hf : f t with
      | ok etag => rw [hf] at h; cases h
      | fail e0 =>
          rw [hf] at h
          by_cases hjt : j = t
          · subst hjt
            exact ⟨e0, hf⟩
          · exact ih (t + 1) e c h j (by omega) (by omega)

/-! ## Claim C6: part-upload retry policy -/

/-- C6: `uploadPart` calls the remote `UploadPart` at least once and at
most `maxUploadRetries = 5` times; if the attempts before `k ≤ 5` fail and
attempt `k` succeeds, it stops at attempt `k` and returns a record with
the given part number and that attempt's entity tag; it returns an error
iff all 5 attempts fail, and then the error is built from the last
attempt's cause — a structured service error's code and message are
formatted into the text, a generic error is wrapped. -/
theorem claim_C6_uploadRetryPolicy (f : Nat → UpOutcome) (pn : Nat) :
    (1 ≤ (uploadPartRecord f pn).2 ∧ (uploadPartRecord f pn).2 ≤ maxUploadRetries)
    ∧ (∀ (k : Nat) (et : String), 1 ≤ k → k ≤ maxUploadRetries →
        (∀ j, 1 ≤ j → j < k → ∃ e, f j = .fail e) → f k = .ok et →
        (uploadPartRecord f pn).1 = .ok ⟨pn, et⟩ ∧ (uploadPartRecord f pn).2 = k)
    ∧ ((∃ e, (uploadPartRecord f pn).1 = .error e) ↔
        (∀ j, 1 ≤ j → j ≤ maxUploadRetries → ∃ e, f j = .fail e))
    ∧ (∀ e : GoErr, (∀ j, 1 ≤ j → j < maxUploadRetries → ∃ e', f j = .fail e') →
        f maxUploadRetries = .fail e →
        (uploadPartRecord f pn).1 = .error (uploadFailErr maxUploadRetries e)
        ∧ (∀ c m, errorsAsAPI e = some (c, m) →
            uploadFailErr maxUploadRetries e
              = .msg ("aws error " ++ c ++ " while uploading: retried "
                  ++ toString maxUploadRetries ++ " times.: " ++ m))
        ∧ (errorsAsAPI e = none →
            uploadFailErr maxUploadRetries e
              = .wrap ("error while uploading: retried "
                  ++ toString maxUploadRetries ++ " times.:") e)) := by
  have hrec : ∀ (res : Except GoErr String) (c : Nat),
      uploadAttempt f 1 (maxUploadRetries - 1) = (res, c) →
      uploadPartRecord f pn
        = (res.map (fun etag => (⟨pn, etag⟩ : PartRecord)), c) := by
    intro res c h
    unfold uploadPartRecord
    rw [h]
    cases res <;> rfl
  refine ⟨⟨?_, ?_⟩, ?_, ?_, ?_⟩
  · rcases hu : uploadAttempt f 1 (maxUploadRetries - 1) with ⟨res, c⟩
    rw [hrec res c hu]
    have := uploadAttempt_calls_ge f (maxUploadRetries - 1) 1
    rw [hu] at this
    simpa using this
  · rcases hu : uploadAttempt f 1 (maxUploadRetries - 1) with ⟨res, c⟩
    rw [hrec res c hu]
    have := uploadAttempt_calls_le f (maxUploadRetries - 1) 1
    rw [hu] at this
    simp only at this ⊢
    unfold maxUploadRetries at this ⊢
    omega
  · intro k et h1 h5 hprev hk
    have hu := uploadAttempt_ok_at f (maxUploadRetries - 1) 1 k et h1
      (by unfold maxUploadRetries at h5 ⊢; omega) hprev hk
    rw [hrec _ _ hu]
    exact ⟨rfl, rfl⟩
  · constructor
    · rintro ⟨e, he⟩
      rcases hu : uploadAttempt f 1 (maxUploadRetries - 1) with ⟨res, c⟩
      rw [hrec res c hu] at he
      cases res with
      | ok etag => simp [Except.map] at he
      | error e' =>
          intro j hj1 hj5
          exact uploadAttempt_error_all_fail f (maxUploadRetries - 1) 1 e' c hu j hj1
            (by unfold maxUploadRetries at hj5 ⊢; omega)
    · intro hall
      obtain ⟨e, _, hu⟩ := uploadAttempt_all_fail f (maxUploadRetries - 1) 1
        (fun j hj1 hj2 => hall j hj1 (by unfold maxUploadRetries at hj2 ⊢; omega))
      rw [hrec _ _ hu]
      exact ⟨uploadFailErr (1 + (maxUploadRetries - 1)) e, rfl⟩
  · intro e hprev hlast
    have hall : ∀ j, 1 ≤ j → j ≤ 1 + (maxUploadRetries - 1) → ∃ e', f j = .fail e' := by
      intro j hj1 hj2
      by_cases hj : j = maxUploadRetries
      · subst hj
        exact ⟨e, hlast⟩
      · exact hprev j hj1 (by unfold maxUploadRetries at hj2 hj ⊢; omega)
    obtain ⟨e', he', hu⟩ := uploadAttempt_all_fail f (maxUploadRetries - 1) 1 hall
    have hee : e' = e := by
      rw [show (1 : Nat) + (maxUploadRetries - 1) = maxUploadRetries from by
        unfold maxUploadRetries; omega] at he'
      rw [hlast] at he'
      injection he' with h
      exact h.symm
    subst hee
    rw [show (1 : Nat) + (maxUploadRetries - 1) = maxUploadRetries from by
      unfold maxUploadRetries; omega] at hu
    refine ⟨by rw [hrec _ _ hu]; rfl, ?_, ?_⟩
    · intro c m hapi
      unfold uploadFailErr
      rw [hapi]
    · intro hapi
      unfold uploadFailErr
      rw [hapi]

/-- Witness for C6: failures on attempts 1 and 2, success on attempt 3:
three calls, record `⟨7, "T3"⟩`. -/
theorem claim_C6_uploadRetryPolicy_witness :
    (uploadPartRecord (fun t => if t < 3 then UpOutcome.fail (GoErr.transport t)
        else UpOutcome.ok "T3") 7).1 = .ok ⟨7, "T3"⟩
    ∧ (uploadPartRecord (fun t => if t < 3 then UpOutcome.fail (GoErr.transport t)
        else UpOutcome.ok "T3") 7).2 = 3 :=
  (claim_C6_uploadRetryPolicy (fun t => if t < 3 then UpOutcome.fail (GoErr.transport t)
      else UpOutcome.ok "T3") 7).2.1 3 "T3" (by decide) (by decide)
    (by
      intro j h1 h3
      refine ⟨GoErr.transport j, ?_⟩
      simp [h3])
    (by decide)

/-! ### Abort-error independence (C5) -/

theorem abortRet_some {W : String → Option GoErr → Option GoErr}
    (hW : ∀ (s : String) (x : GoErr), W s (some x) = some (.wrap s x))
    {env : PutEnv} {x : GoErr} (hx : env.abortRemoteErr = some x)
    (orig onOk : Option GoErr) :
    abortRet W env orig onOk = W "could not abort upload" orig := by
  unfold abortRet abortMultipartUpload
  rw [hx, hW]

theorem putLoop_abortErr_irrel (W : String → Option GoErr → Option GoErr)
    (hW : ∀ (s : String) (x : GoErr), W s (some x) = some (.wrap s x))
    (env : PutEnv) (wbs : Nat) (a a' : GoErr) :
    ∀ (evs : List ReadEv) (st : PutSt),
      putLoop W { env with abortRemoteErr := some a } wbs evs st
        = putLoop W { env with abortRemoteErr := some a' } wbs evs st := by
  have hread : ∀ st e, mkReadErrOut W { env with abortRemoteErr := some a } st e
      = mkReadErrOut W { env with abortRemoteErr := some a' } st e := by
    intro st e
    unfold mkReadErrOut
    rw [abortRet_some hW
        (show ({ env with abortRemoteErr := some a } : PutEnv).abortRemoteErr
          = some a from rfl),
      abortRet_some hW
        (show ({ env with abortRemoteErr := some a' } : PutEnv).abortRemoteErr
          = some a' from rfl)]
  have hupl : ∀ st e, mkUploadErrOut W { env with abortRemoteErr := some a } st e
      = mkUploadErrOut W { env with abortRemoteErr := some a' } st e := by
    intro st e
    unfold mkUploadErrOut
    rw [abortRet_some hW
        (show ({ env with abortRemoteErr := some a } : PutEnv).abortRemoteErr
          = some a from rfl),
      abortRet_some hW
        (show ({ env with abortRemoteErr := some a' } : PutEnv).abortRemoteErr
          = some a' from rfl)]
  have hceil : ∀ st, mkCeilingOut W { env with abortRemoteErr := some a } st
      = mkCeilingOut W { env with abortRemoteErr := some a' } st := by
    intro st
    unfold mkCeilingOut
    rw [abortRet_some hW
        (show ({ env with abortRemoteErr := some a } : PutEnv).abortRemoteErr
          = some a from rfl),
      abortRet_some hW
        (show ({ env with abortRemoteErr := some a' } : PutEnv).abortRemoteErr
          = some a' from rfl)]
  have hfin : ∀ st, finishPut W { env with abortRemoteErr := some a } st
      = finishPut W { env with abortRemoteErr := some a' } st := by
    intro st
    unfold finishPut
    cases hu : (uploadPartRecord (env.upload st.i) st.i).1 with
    | error e => exact hupl st e
    | ok rec => rfl
  have hflush : ∀ n st, flushIfNeeded W { env with abortRemoteErr := some a } wbs n st
      = flushIfNeeded W { env with abortRemoteErr := some a' } wbs n st := by
    intro n st
    unfold flushIfNeeded
    by_cases hc : wbs < st.buf.length + n
    · rw [if_pos hc, if_pos hc]
      cases hu : (uploadPartRecord (env.upload st.i) st.i).1 with
      | error e => exact congrArg Sum.inl (hupl st e)
      | ok rec => rfl
    · rw [if_neg hc, if_neg hc]
  have hfc : ∀ data st, finishChunk W { env with abortRemoteErr := some a } wbs data st
      = finishChunk W { env with abortRemoteErr := some a' } wbs data st := by
    intro data st
    unfold finishChunk
    rw [hflush]
    cases hr : flushIfNeeded W { env with abortRemoteErr := some a' } wbs data.length st with
    | inl out => rfl
    | inr st1 => exact hfin _
  intro evs
  induction evs with
  | nil =>
      intro st
      simp only [putLoop]
      by_cases hI : awsMaxParts < st.i
      · rw [if_pos hI, if_pos hI, hceil]
      · rw [if_neg hI, if_neg hI, hfc]
  | cons ev rest ih =>
      intro st
      by_cases hI : awsMaxParts < st.i
      · simp only [putLoop]
        rw [if_pos hI, if_pos hI, hceil]
      · cases ev with
        | rerr e =>
            simp only [putLoop]
            rw [if_neg hI, if_neg hI, hread]
        | chunk data eof =>
            cases eof with
            | true =>
                simp only [putLoop]
                rw [if_neg hI, if_neg hI, hfc]
            | false =>
                simp only [putLoop]
                rw [if_neg hI, if_neg hI, hflush]
                cases hr : flushIfNeeded W { env with abortRemoteErr := some a' }
                    wbs data.length st with
                | inl out => rfl
                | inr st1 => exact ih _

/-! ## Claim C5: abort-failure wrapping (corrected) -/

/-- C5 counterexample: a v1 `Put` whose read fails and whose remote Abort
then fails with the distinctive error `api "AbortFail" "boom"`.  The
returned error wraps the original read failure but does not contain the
abort failure anywhere in its wrap chain — the claim says both causes are
wrapped, yet the abort cause is lost. -/
theorem claim_C5_counterexample :
    (putRunV1 ⟨none, fun _ _ => UpOutcome.ok "E",
        some (.api "AbortFail" "boom"), none⟩ 4 [.rerr (.transport 7)]).abortCalls = 1
    ∧ (putRunV1 ⟨none, fun _ _ => UpOutcome.ok "E",
        some (.api "AbortFail" "boom"), none⟩ 4 [.rerr (.transport 7)]).ret
      = some (.wrap "could not abort upload"
          (.wrap "could not read part 1" (.transport 7)))
    ∧ errContains (.wrap "could not abort upload"
          (.wrap "could not read part 1" (.transport 7)))
        (.api "AbortFail" "boom") = false
    ∧ errContains (.wrap "could not abort upload"
          (.wrap "could not read part 1" (.transport 7)))
        (.transport 7) = true := by
  refine ⟨by decide, by decide, by decide, by decide⟩

/-- C5 (amended): when a failure path triggers an Abort and the Abort
fails, the returned error wraps the original upstream failure and marks
the abort failure only through its message — the abort call's own error
value is discarded.  Formally: (i) in both variants `Put`'s entire output
is independent of the content of the remote abort error; (ii) in the v2
variant every aborting path returns the "could not abort upload" wrapper
around the original error; (iii) on the v1 read-error path with a failing
abort, the returned error is exactly the wrapper around the read error. -/
theorem claim_C5_abortFailureWrapping :
    (∀ (env : PutEnv) (wbs : Nat) (evs : List ReadEv) (a a' : GoErr),
        putRunV1 { env with abortRemoteErr := some a } wbs evs
          = putRunV1 { env with abortRemoteErr := some a' } wbs evs
        ∧ putRunV2 { env with abortRemoteErr := some a } wbs evs
          = putRunV2 { env with abortRemoteErr := some a' } wbs evs)
    ∧ (∀ (env : PutEnv) (wbs : Nat) (evs : List ReadEv),
        1 ≤ (putRunV2 env wbs evs).abortCalls →
        ∃ inner, (putRunV2 env wbs evs).ret
          = some (.wrap "could not abort upload" inner))
    ∧ (∀ (env : PutEnv) (wbs : Nat) (e : GoErr) (rest : List ReadEv) (a : GoErr),
        env.createErr = none → env.abortRemoteErr = some a →
        (putRunV1 env wbs (.rerr e :: rest)).ret
          = some (.wrap "could not abort upload"
              (.wrap "could not read part 1" e))) := by
  refine ⟨?_, ?_, ?_⟩
  · intro env wbs evs a a'
    constructor
    · unfold putRunV1 putRun
      simp only
      cases env.createErr with
      | some e => rfl
      | none =>
          exact putLoop_abortErr_irrel wrapV1 (fun s x => rfl)
            { env with createErr := none } wbs a a' evs initPut
    · unfold putRunV2 putRun
      simp only
      cases env.createErr with
      | some e => rfl
      | none =>
          exact putLoop_abortErr_irrel wrapV2 (fun s x => rfl)
            { env with createErr := none } wbs a a' evs initPut
  · intro env wbs evs hab
    unfold putRunV2 putRun at hab ⊢
    revert hab
    cases hcr : env.createErr with
    | some e =>
        intro hab
        simp at hab
    | none =>
        intro hab
        exact putLoop_abort_wrap_V2 env wbs evs initPut hab
  · intro env wbs e rest a hcr habort
    unfold putRunV1 putRun
    rw [hcr]
    simp only [putLoop]
    rw [if_neg (by decide)]
    unfold mkReadErrOut mkOut abortRet abortMultipartUpload
    rw [habort]
    simp only [wrapV1]
    have hs : "could not read part " ++ toString initPut.i = "could not read part 1" := by
      decide
    rw [hs]

/-- Witness for the amended C5 at concrete inputs. -/
theorem claim_C5_abortFailureWrapping_witness :
    (putRunV1 { goodEnv with abortRemoteErr := some (.transport 1) } 4
        [.rerr (.transport 9)]
      = putRunV1 { goodEnv with abortRemoteErr := some (.transport 2) } 4
        [.rerr (.transport 9)]
    ∧ putRunV2 { goodEnv with abortRemoteErr := some (.transport 1) } 4
        [.rerr (.transport 9)]
      = putRunV2 { goodEnv with abortRemoteErr := some (.transport 2) } 4
        [.rerr (.transport 9)])
    ∧ (1 ≤ (putRunV2 goodEnv 4 [.rerr (.transport 9)]).abortCalls
      ∧ ∃ inner, (putRunV2 goodEnv 4 [.rerr (.transport 9)]).ret
          = some (.wrap "could not abort upload" inner))
    ∧ ((⟨none, fun _ _ => UpOutcome.ok "E", some (.api "AF" "x"), none⟩ : PutEnv).createErr = none
      ∧ (⟨none, fun _ _ => UpOutcome.ok "E", some (.api "AF" "x"), none⟩ : PutEnv).abortRemoteErr
          = some (.api "AF" "x")
      ∧ (putRunV1 ⟨none, fun _ _ => UpOutcome.ok "E", some (.api "AF" "x"), none⟩ 4
          [.rerr (.transport 9)]).ret
        = some (.wrap "could not abort upload"
            (.wrap "could not read part 1" (.transport 9)))) :=
  ⟨claim_C5_abortFailureWrapping.1 goodEnv 4 [.rerr (.transport 9)]
      (.transport 1) (.transport 2),
    ⟨by decide, claim_C5_abortFailureWrapping.2.1 goodEnv 4
      [.rerr (.transport 9)] (by decide)⟩,
    ⟨rfl, rfl, claim_C5_abortFailureWrapping.2.2
      ⟨none, fun _ _ => UpOutcome.ok "E", some (.api "AF" "x"), none⟩ 4
      (.transport 9) [] (.api "AF" "x") rfl rfl⟩⟩

/-! ### Buffer-fill bound (C9) -/

theorem chunkSizesLe_spec {tbs : Nat} {evs : List ReadEv}
    (h : chunkSizesLe tbs evs = true) :
    ∀ d b, ReadEv.chunk d b ∈ evs → d.length ≤ tbs := by
  intro d b hm
  unfold chunkSizesLe at h
  rw [List.all_eq_true] at h
  have hx := h _ hm
  simpa using hx

theorem finishPut_bufPeak (W : String → Option GoErr → Option GoErr)
    (env : PutEnv) (st : PutSt) : (finishPut W env st).bufPeak = st.bufPeak := by
  cases hup : (uploadPartRecord (env.upload st.i) st.i).1 with
  | error e =>
      rw [finishPut_of_err hup]
      rfl
  | ok rec =>
      rw [finishPut_of_ok hup]
      cases env.completeErr <;> rfl

theorem finishPut_payloads_sub (W : String → Option GoErr → Option GoErr)
    (env : PutEnv) (st : PutSt) :
    ∀ p ∈ (finishPut W env st).payloads, p ∈ st.payloads ∨ p = st.buf := by
  cases hup : (uploadPartRecord (env.upload st.i) st.i).1 with
  | error e =>
      rw [finishPut_of_err hup]
      intro p hp
      exact .inl hp
  | ok rec =>
      rw [finishPut_of_ok hup]
      cases env.completeErr <;>
        · intro p hp
          simp only [mkOut, List.mem_append, List.mem_singleton] at hp
          exact hp

theorem finishChunk_peak {W : String → Option GoErr → Option GoErr}
    {env : PutEnv} {wbs : Nat} {data : List Nat} {st : PutSt}
    (hd : data.length ≤ wbs) (hbuf : st.buf.length ≤ wbs)
    (hpk : st.bufPeak ≤ wbs) (hpay : ∀ p ∈ st.payloads, p.length ≤ wbs) :
    (finishChunk W env wbs data st).bufPeak ≤ wbs
    ∧ ∀ p ∈ (finishChunk W env wbs data st).payloads, p.length ≤ wbs := by
  unfold finishChunk
  by_cases hc : wbs < st.buf.length + data.length
  · cases hup : (uploadPartRecord (env.upload st.i) st.i).1 with
    | error e =>
        rw [flushIfNeeded_of_err hc hup]
        exact ⟨hpk, hpay⟩
    | ok rec =>
        rw [flushIfNeeded_of_ok hc hup]
        constructor
        · rw [finishPut_bufPeak]
          show max st.bufPeak (List.length ([] : List Nat) + data.length) ≤ wbs
          simp only [List.length_nil, Nat.zero_add]
          omega
        · intro p hp
          rcases finishPut_payloads_sub W env _ p hp with h | h
          · show p.length ≤ wbs
            have hp2 : p ∈ st.payloads ++ [st.buf] := h
            rcases List.mem_append.mp hp2 with h2 | h2
            · exact hpay p h2
            · rw [List.mem_singleton.mp h2]
              exact hbuf
          · rw [h]
            show (([] : List Nat) ++ data).length ≤ wbs
            simpa using hd
  · rw [flushIfNeeded_of_le hc]
    push_neg at hc
    constructor
    · rw [finishPut_bufPeak]
      show max st.bufPeak (st.buf.length + data.length) ≤ wbs
      omega
    · intro p hp
      rcases finishPut_payloads_sub W env _ p hp with h | h
      · exact hpay p h
      · rw [h]
        show (st.buf ++ data).length ≤ wbs
        simpa using hc

theorem putLoop_peak (W : String → Option GoErr → Option GoErr)
    (env : PutEnv) (wbs : Nat) :
    ∀ (evs : List ReadEv) (st : PutSt),
      (∀ d b, ReadEv.chunk d b ∈ evs → d.length ≤ wbs) →
      st.buf.length ≤ wbs → st.bufPeak ≤ wbs →
      (∀ p ∈ st.payloads, p.length ≤ wbs) →
      (putLoop W env wbs evs st).bufPeak ≤ wbs
      ∧ ∀ p ∈ (putLoop W env wbs evs st).payloads, p.length ≤ wbs := by
  intro evs
  induction evs with
  | nil =>
      intro st hsz hbuf hpk hpay
      simp only [putLoop]
      by_cases hI : awsMaxParts < st.i
      · rw [if_pos hI]
        exact ⟨hpk, hpay⟩
      · rw [if_neg hI]
        exact finishChunk_peak (by simp) hbuf hpk hpay
  | cons ev rest ih =>
      intro st hsz hbuf hpk hpay
      by_cases hI : awsMaxParts < st.i
      · simp only [putLoop]
        rw [if_pos hI]
        exact ⟨hpk, hpay⟩
      · cases ev with
        | rerr e =>
            simp only [putLoop]
            rw [if_neg hI]
            exact ⟨hpk, hpay⟩
        | chunk data eof =>
            have hd : data.length ≤ wbs :=
              hsz data eof (List.mem_cons_self _ _)
            have hsz' : ∀ d b, ReadEv.chunk d b ∈ rest → d.length ≤ wbs :=
              fun d b hm => hsz d b (List.mem_cons_of_mem _ hm)
            cases eof with
            | true =>
                simp only [putLoop]
                rw [if_neg hI]
                exact finishChunk_peak hd hbuf hpk hpay
            | false =>
                simp only [putLoop]
                rw [if_neg hI]
                by_cases hc : wbs < st.buf.length + data.length
                · cases hup : (uploadPartRecord (env.upload st.i) st.i).1 with
                  | error e =>
                      rw [flushIfNeeded_of_err hc hup]
                      exact ⟨hpk, hpay⟩
                  | ok rec =>
                      rw [flushIfNeeded_of_ok hc hup]
                      refine ih _ hsz' ?_ ?_ ?_
                      · show (([] : List Nat) ++ data).length ≤ wbs
                        simpa using hd
                      · show max st.bufPeak (List.length ([] : List Nat) + data.length) ≤ wbs
                        simp only [List.length_nil, Nat.zero_add]
                        omega
                      · intro p hp
                        have hp2 : p ∈ st.payloads ++ [st.buf] := hp
                        rcases List.mem_append.mp hp2 with h2 | h2
                        · exact hpay p h2
                        · rw [List.mem_singleton.mp h2]
                          exact hbuf
                · rw [flushIfNeeded_of_le hc]
                  push_neg at hc
                  refine ih _ hsz' ?_ ?_ ?_
                  · show (st.buf ++ data).length ≤ wbs
                    simpa using hc
                  · show max st.bufPeak (st.buf.length + data.length) ≤ wbs
                    omega
                  · exact hpay

/-! ## Claim C9: buffered bytes never exceed the write-part size -/

/-- C9: in every `Put` call (either variant), provided each read returns
at most `tempBlockSize` bytes (Go's contract for `Read(temp)` with the
1 MiB temp buffer), the number of buffered bytes `dataidx` never exceeds
`writeBlockSize` at any point of the loop (its running peak is bounded),
and hence every part handed to `uploadPart` — including the final one —
has length at most `writeBlockSize` (8 MiB).  The pre-append overflow
check therefore never lets a part exceed the configured part size. -/
theorem claim_C9_partSizeBound (W : String → Option GoErr → Option GoErr)
    (env : PutEnv) (evs : List ReadEv)
    (hsz : chunkSizesLe tempBlockSize evs = true) :
    (putRun W env writeBlockSize evs).bufPeak ≤ writeBlockSize
    ∧ ∀ p ∈ (putRun W env writeBlockSize evs).payloads,
        p.length ≤ writeBlockSize := by
  have hsz' := chunkSizesLe_spec hsz
  have hsz2 : ∀ d b, ReadEv.chunk d b ∈ evs → d.length ≤ writeBlockSize := by
    intro d b hm
    have h1 := hsz' d b hm
    have h2 : tempBlockSize ≤ writeBlockSize := by
      unfold tempBlockSize writeBlockSize
      omega
    omega
  unfold putRun
  cases hcr : env.createErr with
  | some e =>
      constructor
      · simp
      · intro p hp
        simp at hp
  | none =>
      exact putLoop_peak W env writeBlockSize evs initPut hsz2
        (by simp [initPut]) (by simp [initPut]) (by simp [initPut])

/-- Witness for C9 at the real constants: two small reads within the
1 MiB read bound, peak fill 3 bytes ≤ 8 MiB. -/
theorem claim_C9_partSizeBound_witness :
    chunkSizesLe tempBlockSize [.chunk [1, 2] false, .chunk [3] true] = true
    ∧ ((putRun wrapV2 goodEnv writeBlockSize
          [.chunk [1, 2] false, .chunk [3] true]).bufPeak ≤ writeBlockSize
    ∧ ∀ p ∈ (putRun wrapV2 goodEnv writeBlockSize
          [.chunk [1, 2] false, .chunk [3] true]).payloads,
        p.length ≤ writeBlockSize) :=
  ⟨by decide, claim_C9_partSizeBound wrapV2 goodEnv
    [.chunk [1, 2] false, .chunk [3] true] (by decide)⟩

/-! ### The part-count ceiling (C8) -/

theorem finishPut_exit (W : String → Option GoErr → Option GoErr)
    (env : PutEnv) (st : PutSt) :
    (finishPut W env st).exit = .errUpload ∨ (finishPut W env st).exit = .finished := by
  cases hup : (uploadPartRecord (env.upload st.i) st.i).1 with
  | error e =>
      rw [finishPut_of_err hup]
      exact .inl rfl
  | ok rec =>
      rw [finishPut_of_ok hup]
      cases env.completeErr <;> exact .inr rfl

theorem finishChunk_exit (W : String → Option GoErr → Option GoErr)
    (env : PutEnv) (wbs : Nat) (data : List Nat) (st : PutSt) :
    (finishChunk W env wbs data st).exit = .errUpload
    ∨ (finishChunk W env wbs data st).exit = .finished := by
  unfold finishChunk
  by_cases hc : wbs < st.buf.length + data.length
  · cases hup : (uploadPartRecord (env.upload st.i) st.i).1 with
    | error e =>
        rw [flushIfNeeded_of_err hc hup]
        exact .inl rfl
    | ok rec =>
        rw [flushIfNeeded_of_ok hc hup]
        exact finishPut_exit W env _
  · rw [flushIfNeeded_of_le hc]
    exact finishPut_exit W env _

/-- The v2 loop exits through the `i > awsMaxParts` check exactly at the
ceiling output: one Abort, no Complete, and the ceiling error wrapped by
the (always failing) v2 abort helper. -/
theorem putLoop_ceiling_V2 (env : PutEnv) (wbs : Nat) :
    ∀ (evs : List ReadEv) (st : PutSt),
      (putLoop wrapV2 env wbs evs st).exit = .ceiling →
      (putLoop wrapV2 env wbs evs st).abortCalls = 1
      ∧ (putLoop wrapV2 env wbs evs st).completeCalls = 0
      ∧ (putLoop wrapV2 env wbs evs st).ret
          = some (.wrap "could not abort upload" (.msg ceilingMsg)) := by
  intro evs
  induction evs with
  | nil =>
      intro st hex
      simp only [putLoop] at hex ⊢
      by_cases hI : awsMaxParts < st.i
      · rw [if_pos hI]
        exact ⟨rfl, rfl, mkCeilingOut_V2_ret env st⟩
      · rw [if_neg hI] at hex
        rcases finishChunk_exit wrapV2 env wbs [] st with h | h <;>
          · rw [h] at hex
            cases hex
  | cons ev rest ih =>
      intro st hex
      by_cases hI : awsMaxParts < st.i
      · simp only [putLoop]
        rw [if_pos hI]
        exact ⟨rfl, rfl, mkCeilingOut_V2_ret env st⟩
      · cases ev with
        | rerr e =>
            simp only [putLoop] at hex
            rw [if_neg hI] at hex
            cases hex
        | chunk data eof =>
            cases eof with
            | true =>
                simp only [putLoop] at hex ⊢
                rw [if_neg hI] at hex ⊢
                rcases finishChunk_exit wrapV2 env wbs data st with h | h <;>
                  · rw [h] at hex
                    cases hex
            | false =>
                simp only [putLoop] at hex ⊢
                rw [if_neg hI] at hex ⊢
                by_cases hc : wbs < st.buf.length + data.length
                · cases hup : (uploadPartRecord (env.upload st.i) st.i).1 with
                  | error e =>
                      rw [flushIfNeeded_of_err hc hup] at hex
                      cases hex
                  | ok rec =>
                      rw [flushIfNeeded_of_ok hc hup] at hex ⊢
                      exact ih _ hex
                · rw [flushIfNeeded_of_le hc] at hex ⊢
                  exact ih _ hex

/-! ## Claim C8: part-count ceiling (corrected) -/

/-- C8 (amended): whenever the v2 buffering loop exits because the part
counter exceeded `awsMaxParts = 10000` before end-of-stream was reached,
`Put` fails with the max-parts error (wrapped by the always-failing v2
abort helper), an Abort is issued, and Complete is never called.  The
original claim's trigger — any input requiring more than 10000 parts — is
too strong: an input whose final read returns its bytes together with
`io.EOF` while the counter is at 10000 is completed with 10001 parts (see
the counterexample). -/
theorem claim_C8_tooManyParts (env : PutEnv) (wbs : Nat) (evs : List ReadEv)
    (hex : (putRunV2 env wbs evs).exit = .ceiling) :
    (putRunV2 env wbs evs).abortCalls = 1
    ∧ (putRunV2 env wbs evs).completeCalls = 0
    ∧ (putRunV2 env wbs evs).ret
        = some (.wrap "could not abort upload" (.msg ceilingMsg)) := by
  unfold putRunV2 putRun at hex ⊢
  revert hex
  cases hcr : env.createErr with
  | some e =>
      intro hex
      simp at hex
  | none =>
      intro hex
      exact putLoop_ceiling_V2 env wbs evs initPut hex

theorem putRun_first_plain (tail : List ReadEv) :
    putRunV2 goodEnv 1 (plainChunk :: tail)
      = putLoop wrapV2 goodEnv 1 tail ⟨1, [0], 1, [], [], 1⟩ := by
  unfold putRunV2 putRun
  show putLoop wrapV2 goodEnv 1 (plainChunk :: tail) initPut = _
  simp only [putLoop, plainChunk]
  rw [if_neg (by decide)]
  rw [flushIfNeeded_of_le (by decide)]
  rfl

theorem advanceSt_step (k : Nat) (st : PutSt) (hb : st.buf = [0]) :
    advanceSt k (appendChunk [0] (flushedSt st)) = advanceSt (k + 1) st := by
  refine PutSt.ext ?_ ?_ ?_ ?_ ?_ ?_
  · show st.i + 1 + k = st.i + (k + 1)
    omega
  · rfl
  · show st.total + ([0] : List Nat).length + k = st.total + (k + 1)
    simp only [List.length_cons, List.length_nil]
    omega
  · show (st.parts ++ [(⟨st.i, "E"⟩ : PartRecord)])
        ++ (List.range k).map (fun j => (⟨st.i + 1 + j, "E"⟩ : PartRecord))
      = st.parts ++ (List.range (k + 1)).map (fun j => (⟨st.i + j, "E"⟩ : PartRecord))
    rw [List.append_assoc]
    congr 1
    rw [List.range_succ_eq_map]
    simp only [List.map_cons, List.map_map, Nat.add_zero, List.singleton_append]
    congr 1
    apply List.map_congr_left
    intro j hj
    simp only [Function.comp_apply, PartRecord.mk.injEq, and_true]
    omega
  · show (st.payloads ++ [st.buf]) ++ List.replicate k [0]
      = st.payloads ++ List.replicate (k + 1) [0]
    rw [hb, List.append_assoc]
    congr 1
  · show max (max st.bufPeak (List.length ([] : List Nat) + ([0] : List Nat).length)) 1
      = max st.bufPeak 1
    simp only [List.length_nil, List.length_cons, Nat.zero_add]
    omega

theorem putLoop_plain_advance :
    ∀ (k : Nat) (st : PutSt) (tail : List ReadEv),
      st.buf = [0] → 1 ≤ st.bufPeak → st.i + k ≤ awsMaxParts + 1 →
      putLoop wrapV2 goodEnv 1 (manyEvs k ++ tail) st
        = putLoop wrapV2 goodEnv 1 tail (advanceSt k st) := by
  intro k
  induction k with
  | zero =>
      intro st tail hb hpk hi
      have hadv : advanceSt 0 st = st := by
        refine PutSt.ext ?_ ?_ ?_ ?_ ?_ ?_
        · show st.i + 0 = st.i
          omega
        · show [0] = st.buf
          rw [hb]
        · show st.total + 0 = st.total
          omega
        · show st.parts ++ (List.range 0).map (fun j => (⟨st.i + j, "E"⟩ : PartRecord))
            = st.parts
          simp
        · show st.payloads ++ List.replicate 0 [0] = st.payloads
          simp
        · show max st.bufPeak 1 = st.bufPeak
          omega
      rw [show manyEvs 0 ++ tail = tail from by simp [manyEvs], hadv]
  | succ k ih =>
      intro st tail hb hpk hi
      have hstep : manyEvs (k + 1) ++ tail = plainChunk :: (manyEvs k ++ tail) := by
        simp [manyEvs, List.replicate_succ]
      rw [hstep]
      simp only [putLoop, plainChunk]
      rw [if_neg (show ¬ awsMaxParts < st.i from by
        unfold awsMaxParts at hi ⊢
        omega)]
      rw [flushIfNeeded_of_ok
        (show 1 < st.buf.length + ([0] : List Nat).length from by rw [hb]; decide)
        (show (uploadPartRecord (goodEnv.upload st.i) st.i).1
          = .ok ⟨st.i, "E"⟩ from rfl)]
      have hmain := ih (appendChunk [0] (flushedSt st)) tail rfl
        (le_max_right _ _)
        (show (appendChunk [0] (flushedSt st)).i + k ≤ awsMaxParts + 1 from by
          show st.i + 1 + k ≤ awsMaxParts + 1
          omega)
      exact hmain.trans
        (congrArg (putLoop wrapV2 goodEnv 1 tail) (advanceSt_step k st hb))

/-- In the all-success environment at write-part size 1, an EOF-flagged
read that overflows the buffer uploads two parts (the flushed buffer and
the final chunk) and completes. -/
theorem finishChunk_goodEnv_fields (data : List Nat) (st : PutSt)
    (hc : 1 < st.buf.length + data.length) :
    (finishChunk wrapV2 goodEnv 1 data st).ret = none
    ∧ (finishChunk wrapV2 goodEnv 1 data st).completeCalls = 1
    ∧ (finishChunk wrapV2 goodEnv 1 data st).abortCalls = 0
    ∧ (finishChunk wrapV2 goodEnv 1 data st).parts.length = st.parts.length + 2
    ∧ (finishChunk wrapV2 goodEnv 1 data st).total = st.total + data.length := by
  unfold finishChunk
  rw [flushIfNeeded_of_ok hc
    (show (uploadPartRecord (goodEnv.upload st.i) st.i).1
      = .ok ⟨st.i, "E"⟩ from rfl)]
  show (finishPut wrapV2 goodEnv (appendChunk data (flushedSt st))).ret = none
    ∧ (finishPut wrapV2 goodEnv (appendChunk data (flushedSt st))).completeCalls = 1
    ∧ (finishPut wrapV2 goodEnv (appendChunk data (flushedSt st))).abortCalls = 0
    ∧ (finishPut wrapV2 goodEnv (appendChunk data (flushedSt st))).parts.length
        = st.parts.length + 2
    ∧ (finishPut wrapV2 goodEnv (appendChunk data (flushedSt st))).total
        = st.total + data.length
  rw [finishPut_of_ok
    (show (uploadPartRecord
        (goodEnv.upload (appendChunk data (flushedSt st)).i)
        (appendChunk data (flushedSt st)).i).1
      = .ok ⟨(appendChunk data (flushedSt st)).i, "E"⟩ from rfl)]
  rw [show goodEnv.completeErr = none from rfl]
  refine ⟨rfl, rfl, rfl, ?_, rfl⟩
  show ((st.parts ++ [(⟨st.i, "E"⟩ : PartRecord)])
      ++ [(⟨st.i + 1, "E"⟩ : PartRecord)]).length
    = st.parts.length + 2
  simp only [List.length_append, List.length_cons, List.length_nil]

/-- C8 counterexample: 10001 bytes at write-part size 1 — an input that
requires 10001 > 10000 parts — where the final read returns its byte
together with EOF.  `Put` succeeds: no error, Complete called with 10001
parts, no Abort, and no too-many-parts failure. -/
theorem claim_C8_counterexample :
    (putRunV2 goodEnv 1 ceilingHitEvs).ret = none
    ∧ (putRunV2 goodEnv 1 ceilingHitEvs).completeCalls = 1
    ∧ (putRunV2 goodEnv 1 ceilingHitEvs).abortCalls = 0
    ∧ (putRunV2 goodEnv 1 ceilingHitEvs).parts.length = 10001
    ∧ (putRunV2 goodEnv 1 ceilingHitEvs).total = 10001 := by
  have h0 : ceilingHitEvs = plainChunk :: (manyEvs 9999 ++ [ReadEv.chunk [0] true]) := by
    unfold ceilingHitEvs manyEvs
    rw [show (10000 : Nat) = 9999 + 1 from by norm_num, List.replicate_succ]
    rfl
  have h1 : putRunV2 goodEnv 1 ceilingHitEvs
      = putLoop wrapV2 goodEnv 1 [ReadEv.chunk [0] true]
          (advanceSt 9999 ⟨1, [0], 1, [], [], 1⟩) := by
    rw [h0, putRun_first_plain,
      putLoop_plain_advance 9999 ⟨1, [0], 1, [], [], 1⟩ [ReadEv.chunk [0] true]
        rfl (by decide) (by decide)]
  rw [h1]
  simp only [putLoop]
  rw [if_neg (show ¬ awsMaxParts < (advanceSt 9999 ⟨1, [0], 1, [], [], 1⟩).i from by
    unfold advanceSt awsMaxParts
    norm_num)]
  have hfc := finishChunk_goodEnv_fields [0] (advanceSt 9999 ⟨1, [0], 1, [], [], 1⟩)
    (by
      show 1 < (advanceSt 9999 ⟨1, [0], 1, [], [], 1⟩).buf.length
        + ([0] : List Nat).length
      unfold advanceSt
      norm_num)
  obtain ⟨hr, hcc, hab, hlen, htot⟩ := hfc
  refine ⟨hr, hcc, hab, ?_, ?_⟩
  · rw [hlen]
    show (([] : List PartRecord)
        ++ (List.range 9999).map (fun j => (⟨1 + j, "E"⟩ : PartRecord))).length + 2
      = 10001
    simp only [List.nil_append, List.length_map, List.length_range]
  · rw [htot]
    show ((1 : Nat) + 9999) + ([0] : List Nat).length = 10001
    norm_num

theorem ceilingExhaust_exit :
    (putRunV2 goodEnv 1 ceilingExhaustEvs).exit = .ceiling := by
  have h0 : ceilingExhaustEvs = plainChunk :: (manyEvs 10000 ++ []) := by
    unfold ceilingExhaustEvs manyEvs
    rw [show (10001 : Nat) = 10000 + 1 from by norm_num, List.replicate_succ,
      List.append_nil]
  rw [h0, putRun_first_plain,
    putLoop_plain_advance 10000 ⟨1, [0], 1, [], [], 1⟩ [] rfl (by decide) (by decide)]
  simp only [putLoop]
  rw [if_pos (show awsMaxParts < (advanceSt 10000 ⟨1, [0], 1, [], [], 1⟩).i from by
    unfold advanceSt awsMaxParts
    norm_num)]
  rfl

/-- Witness for the amended C8: 10001 single-byte reads whose EOF is not
reached before the counter is exhausted — the loop exits via the ceiling
check, aborts, never completes, and reports the max-parts error. -/
theorem claim_C8_tooManyParts_witness :
    (putRunV2 goodEnv 1 ceilingExhaustEvs).exit = .ceiling
    ∧ ((putRunV2 goodEnv 1 ceilingExhaustEvs).abortCalls = 1
    ∧ (putRunV2 goodEnv 1 ceilingExhaustEvs).completeCalls = 0
    ∧ (putRunV2 goodEnv 1 ceilingExhaustEvs).ret
        = some (.wrap "could not abort upload" (.msg ceilingMsg))) :=
  ⟨ceilingExhaust_exit,
    claim_C8_tooManyParts goodEnv 1 ceilingExhaustEvs ceilingExhaust_exit⟩

end S3Stream
